import Mathlib

/-
Shallow embedding of the query translation / client-side fallback engine of
`sqlalchemy_datastore/datastore_dbapi.py` (python-datastore-sqlalchemy).

Strings are modelled as `List Char` (Python `str` is a sequence of code
points).  Python `int` is `Int`; Python `float` is modelled as an exact
fraction (`PyFloat`, an unreduced numerator/denominator pair): every float
literal appearing in the verified statements is exactly representable in
binary64, and CPython compares `int` with `float` exactly, so exact
fraction arithmetic agrees with CPython on all values used here.  Python
`None` is `Value.vNull`; exceptions are `Except Unit`.
-/

namespace DatastoreDBAPI

/-! ### Character / string helpers (Python `str` semantics) -/

/-- Python `\s` character class (`[ \t\n\r\f\v]`). -/
def pyIsSpace (c : Char) : Bool :=
  c = ' ' || c = '\t' || c = '\n' || c = '\r' || c = Char.ofNat 11 || c = Char.ofNat 12

/-- Python regex `\w` (ASCII range; the statements handled never contain
non-ASCII word characters). -/
def isWordChar (c : Char) : Bool :=
  c.isAlpha || c.isDigit || c = '_'

/-- Python `str.upper` (ASCII case mapping suffices for the inputs involved). -/
def pyUpper (s : List Char) : List Char := s.map Char.toUpper

/-- Python `str.strip()` : drop whitespace on both ends. -/
def lstrip (s : List Char) : List Char := s.dropWhile pyIsSpace

def strip (s : List Char) : List Char :=
  ((lstrip s).reverse.dropWhile pyIsSpace).reverse

/-- Does `pat` occur as a prefix of `s`? (exact characters) -/
def hasPrefixCh : List Char → List Char → Bool
  | [], _ => true
  | _ :: _, [] => false
  | p :: ps, c :: cs => p = c && hasPrefixCh ps cs

/-- Case-insensitive prefix test (`pat` given in upper case). -/
def hasPrefixCI : List Char → List Char → Bool
  | [], _ => true
  | _ :: _, [] => false
  | p :: ps, c :: cs => p = c.toUpper && hasPrefixCI ps cs

/-- Python `str.find(sub, start)` : index of the first occurrence of `pat`
at position `≥ start`, `none` when absent (Python returns `-1`). -/
def findSubFrom (s pat : List Char) (start : Nat) : Option Nat :=
  (List.range (s.length + 1)).find? (fun i => start ≤ i && hasPrefixCh pat (s.drop i))

/-- Python `str.find(sub)`. -/
def findSub (s pat : List Char) : Option Nat := findSubFrom s pat 0

/-- Python `str.replace(old, new)` (all occurrences, left to right,
non-overlapping); `old` is assumed non-empty. -/
def replaceAllGo (old new : List Char) : Nat → List Char → List Char
  | 0, rest => rest
  | _ + 1, [] => []
  | f + 1, c :: cs =>
    if hasPrefixCh old (c :: cs) then
      new ++ replaceAllGo old new f (List.drop old.length (c :: cs))
    else
      c :: replaceAllGo old new f cs

def replaceAll (s old new : List Char) : List Char :=
  replaceAllGo old new s.length s

/-- Python `str.split(sep)` for a one-character separator. -/
def splitOnChar (sep : Char) (s : List Char) : List (List Char) :=
  go s [] where
  go : List Char → List Char → List (List Char)
    | [], acc => [acc.reverse]
    | c :: cs, acc =>
      if c = sep then acc.reverse :: go cs [] else go cs (c :: acc)

/-! ### Python value model -/

/-- One element of a Datastore key path, as found in the JSON wire format
(`{"kind": .., "id": ..}` or `{"kind": .., "name": ..}`). -/
structure PathEl where
  kind : String
  idVal : Option Int
  nameVal : Option String
deriving DecidableEq, Repr

/-- Python `datetime.datetime`: naive when `tzOffsetMinutes = none`,
aware otherwise. -/
structure PyDateTime where
  year : Nat
  month : Nat
  day : Nat
  hour : Nat
  minute : Nat
  second : Nat
  microsecond : Nat
  tzOffsetMinutes : Option Int
deriving DecidableEq, Repr

/-- Python `float`, modelled as an exact, unreduced fraction with a
positive denominator (every construction below keeps the denominator a
positive power of ten or a positive count).  Comparisons cross-multiply,
which is exact — precisely how CPython compares `int` with `float`. -/
structure PyFloat where
  num : Int
  den : Int
deriving DecidableEq, Repr

/-- `10 ^ n` as an integer, structurally recursive. -/
def pow10 : Nat → Int
  | 0 => 1
  | n + 1 => 10 * pow10 n

/-- The Python runtime values the engine manipulates. -/
inductive Value where
  | vNull
  | vBool (b : Bool)
  | vInt (n : Int)
  | vFloat (q : PyFloat)
  | vStr (s : String)
  | vBytes (bs : List Nat)
  | vTime (t : PyDateTime)
  | vKeyPath (p : List PathEl)
  | vList (vs : List Value)
  | vDict (m : List (String × Value))
deriving Repr

/-- Numeric view used by Python's cross-type numeric comparisons:
`bool` is a subtype of `int` in Python, so `True` counts as `1`. -/
def numView : Value → Option PyFloat
  | .vBool b => some ⟨if b then 1 else 0, 1⟩
  | .vInt n => some ⟨n, 1⟩
  | .vFloat q => some q
  | _ => none

/-- Exact equality of fractions (positive denominators). -/
def pfEq (a b : PyFloat) : Bool := a.num * b.den = b.num * a.den

/-- Exact order on fractions (positive denominators). -/
def pfLt (a b : PyFloat) : Bool := a.num * b.den < b.num * a.den

/-- Days from the civil date (proleptic Gregorian), used to compare aware
datetimes as instants. -/
def civilToDays (y m d : Nat) : Int :=
  let y' : Int := if m ≤ 2 then (y : Int) - 1 else (y : Int)
  let era : Int := (if 0 ≤ y' then y' else y' - 399) / 400
  let yoe : Int := y' - era * 400
  let mp : Int := ((m : Int) + 9) % 12
  let doy : Int := (153 * mp + 2) / 5 + (d : Int) - 1
  let doe : Int := yoe * 365 + yoe / 4 - yoe / 100 + doy
  era * 146097 + doe - 719468

/-- Microseconds since the epoch of the instant denoted by an aware
datetime (offset subtracted). -/
def dtInstantMicros (t : PyDateTime) (offMin : Int) : Int :=
  ((civilToDays t.year t.month t.day * 24 + (t.hour : Int)) * 60 + (t.minute : Int)
      - offMin) * 60 * 1000000
    + (t.second : Int) * 1000000 + (t.microsecond : Int)

/-- Python `==` between two datetimes: aware/naive never compare equal;
aware ones compare as instants; naive ones compare field-wise. -/
def dtEq (a b : PyDateTime) : Bool :=
  match a.tzOffsetMinutes, b.tzOffsetMinutes with
  | some oa, some ob => dtInstantMicros a oa = dtInstantMicros b ob
  | none, none =>
      a.year = b.year && a.month = b.month && a.day = b.day &&
      a.hour = b.hour && a.minute = b.minute && a.second = b.second &&
      a.microsecond = b.microsecond
  | _, _ => false

/-- Python `<` between two datetimes: `none` models the `TypeError` raised
when comparing naive with aware.  For the range-validated datetimes produced
by `pyFromIso`, field-lexicographic order coincides with instant order. -/
def dtLt (a b : PyDateTime) : Option Bool :=
  match a.tzOffsetMinutes, b.tzOffsetMinutes with
  | some oa, some ob => some (decide (dtInstantMicros a oa < dtInstantMicros b ob))
  | none, none => some (decide (dtInstantMicros a 0 < dtInstantMicros b 0))
  | _, _ => none

/-- Lexicographic `<` on character lists (Python string comparison by code
point). -/
def lexLtCh : List Char → List Char → Bool
  | [], [] => false
  | [], _ :: _ => true
  | _ :: _, [] => false
  | a :: as_, b :: bs => if a = b then lexLtCh as_ bs else decide (a < b)

def lexLtNat : List Nat → List Nat → Bool
  | [], [] => false
  | [], _ :: _ => true
  | _ :: _, [] => false
  | a :: as_, b :: bs => if a = b then lexLtNat as_ bs else decide (a < b)

/-- Structural equality on `Value`, fuelled to satisfy the termination
checker on the nested `vList`/`vDict` constructors; the entry point
`valueBEq` supplies fuel exceeding any possible recursion depth. -/
def valueBEqF : Nat → Value → Value → Bool
  | 0, _, _ => false
  | f + 1, a, b =>
    match a, b with
    | .vNull, .vNull => true
    | .vBool x, .vBool y => x = y
    | .vInt x, .vInt y => x = y
    | .vFloat x, .vFloat y => x = y
    | .vStr x, .vStr y => x = y
    | .vBytes x, .vBytes y => x = y
    | .vTime x, .vTime y => x = y
    | .vKeyPath x, .vKeyPath y => x = y
    | .vList [], .vList [] => true
    | .vList (x :: xs), .vList (y :: ys) =>
        valueBEqF f x y && valueBEqF f (.vList xs) (.vList ys)
    | .vDict [], .vDict [] => true
    | .vDict ((k, v) :: xs), .vDict ((l, w) :: ys) =>
        k = l && valueBEqF f v w && valueBEqF f (.vDict xs) (.vDict ys)
    | _, _ => false

/-- Fuel far exceeding the nesting depth of any value the engine can build
(CPython's own recursion limit plays the analogous role). -/
def valueBEq (a b : Value) : Bool := valueBEqF 1000000 a b

/-- Python `==` on the values reachable in this engine.  Numeric values
(`bool`/`int`/`float`) compare numerically across types; all other
cross-type comparisons are unequal.  (Element-wise numeric coercion inside
`list`/`dict` equality is not reachable from the embedded call sites —
parsed literals are never lists — so structural equality is used there.) -/
def pyEq (a b : Value) : Bool :=
  match numView a, numView b with
  | some x, some y => pfEq x y
  | _, _ =>
    match a, b with
    | .vNull, .vNull => true
    | .vStr s, .vStr t => decide (s = t)
    | .vBytes x, .vBytes y => decide (x = y)
    | .vTime x, .vTime y => dtEq x y
    | .vKeyPath x, .vKeyPath y => decide (x = y)
    | .vList x, .vList y => valueBEq (.vList x) (.vList y)
    | .vDict x, .vDict y => valueBEq (.vDict x) (.vDict y)
    | _, _ => false

/-- Python `<` ; `none` models a `TypeError` (incomparable types). -/
def pyLt (a b : Value) : Option Bool :=
  match numView a, numView b with
  | some x, some y => some (pfLt x y)
  | _, _ =>
    match a, b with
    | .vStr s, .vStr t => some (lexLtCh s.data t.data)
    | .vBytes x, .vBytes y => some (lexLtNat x y)
    | .vTime x, .vTime y => dtLt x y
    | _, _ => none

def pyGt (a b : Value) : Option Bool := pyLt b a

/-- Python `<=` : for the types above, `a <= b ↔ a < b ∨ a == b`. -/
def pyLe (a b : Value) : Option Bool :=
  match pyLt a b with
  | some l => some (l || pyEq a b)
  | none => none

def pyGe (a b : Value) : Option Bool := pyLe b a

/-- Python truthiness, used by `context.get("key") or context.get("__key__")`. -/
def pyTruthy : Value → Bool
  | .vNull => false
  | .vBool b => b
  | .vInt n => decide (n ≠ 0)
  | .vFloat q => decide (q.num ≠ 0)
  | .vStr s => decide (s ≠ "")
  | .vBytes bs => !bs.isEmpty
  | .vTime _ => true
  | .vKeyPath p => !p.isEmpty
  | .vList vs => !vs.isEmpty
  | .vDict m => !m.isEmpty

/-! ### Number parsing (Python `int(str)`, `float(str)`) -/

def digitsToNat (ds : List Char) : Nat :=
  ds.foldl (fun acc c => acc * 10 + (c.toNat - '0'.toNat)) 0

/-- Read exactly `n` digits; return their value and the rest. -/
def readNDigits (n : Nat) (s : List Char) : Option (Nat × List Char) :=
  let pre := s.take n
  if pre.length = n && pre.all Char.isDigit then some (digitsToNat pre, s.drop n)
  else none

/-- Maximal run of digits at the front. -/
def readDigitRun (s : List Char) : List Char × List Char :=
  (s.takeWhile Char.isDigit, s.dropWhile Char.isDigit)

def expectChar (c : Char) : List Char → Option (List Char)
  | [] => none
  | x :: xs => if x = c then some xs else none

/-- Digits possibly separated by single underscores (Python numeric
literals accepted by `int()`), returning the digit characters. -/
def readUnderscoreDigits : List Char → Option (List Char × List Char)
  | [] => none
  | c :: cs =>
    if c.isDigit then some (go cs [c]) else none
where
  go : List Char → List Char → List Char × List Char
    | [], acc => (acc.reverse, [])
    | '_' :: c :: cs, acc => if c.isDigit then go cs (c :: acc) else (acc.reverse, '_' :: c :: cs)
    | c :: cs, acc => if c.isDigit then go cs (c :: acc) else (acc.reverse, c :: cs)

/-- Python `int(s)` : optional surrounding whitespace, optional sign,
digits (with optional single underscores); `none` models `ValueError`. -/
def pyInt (s0 : List Char) : Option Int := do
  let s := strip s0
  let (sign, s) :=
    match s with
    | '-' :: r => (true, r)
    | '+' :: r => (false, r)
    | r => (false, r)
  let (ds, rest) ← readUnderscoreDigits s
  if rest = [] then
    some (if sign then -(digitsToNat ds : Int) else (digitsToNat ds : Int))
  else none

/-- Python `float(s)` modelled exactly (all float literals in the
verified statements are exactly representable, and the comparisons
performed on them are exact). -/
def pyFloat (s0 : List Char) : Option PyFloat := do
  let s := strip s0
  let (sign, s) :=
    match s with
    | '-' :: r => (true, r)
    | '+' :: r => (false, r)
    | r => (false, r)
  let (ipart, s) := readDigitRun s
  let (fpart, s) ←
    match s with
    | '.' :: r =>
      let (f, r') := readDigitRun r
      some (f, r')
    | r => some (([] : List Char), r)
  if ipart = [] && fpart = [] then none
  else
    -- mantissa = (ipart.fpart) as the fraction (ipart*10^k + fpart) / 10^k
    let mantNum : Int := (digitsToNat ipart : Int) * pow10 fpart.length + (digitsToNat fpart : Int)
    let mantDen : Int := pow10 fpart.length
    let (expNeg, expDigits, s) ←
      match s with
      | 'e' :: r | 'E' :: r =>
        let (esign, r) :=
          match r with
          | '-' :: r' => (true, r')
          | '+' :: r' => (false, r')
          | r' => (false, r')
        let (eds, r') := readDigitRun r
        if eds = [] then none else some (esign, digitsToNat eds, r')
      | r => some (false, 0, r)
    if s = [] then
      let scaled : PyFloat :=
        if expNeg then ⟨mantNum, mantDen * pow10 expDigits⟩
        else ⟨mantNum * pow10 expDigits, mantDen⟩
      some (if sign then ⟨-scaled.num, scaled.den⟩ else scaled)
    else none

/-! ### ISO-8601 parsing: model of Python 3.10 `datetime.fromisoformat`

The source targets the `fromisoformat` the code itself documents
("fromisoformat only handles 0, 3, or 6 digits" of fractional seconds,
comment in `Cursor._parse_literal`): dates are `YYYY-MM-DD`, an arbitrary
separator character, time `HH[:MM[:SS[.fff|.ffffff]]]`, and an optional
offset `±HH:MM[:SS]`. -/

def isLeapYear (y : Nat) : Bool :=
  (y % 4 = 0 && y % 100 ≠ 0) || y % 400 = 0

def daysInMonth (y m : Nat) : Nat :=
  if m = 2 then (if isLeapYear y then 29 else 28)
  else if m = 4 || m = 6 || m = 9 || m = 11 then 30
  else 31

/-- `_parse_hh_mm_ss_ff` : returns (hour, minute, second, microsecond). -/
def parseHMSF (t : List Char) : Option (Nat × Nat × Nat × Nat) := do
  let (h, r) ← readNDigits 2 t
  match r with
  | [] => some (h, 0, 0, 0)
  | ':' :: r2 => do
    let (m, r3) ← readNDigits 2 r2
    match r3 with
    | [] => some (h, m, 0, 0)
    | ':' :: r4 => do
      let (s, r5) ← readNDigits 2 r4
      match r5 with
      | [] => some (h, m, s, 0)
      | '.' :: r6 =>
        if r6.all Char.isDigit && r6.length = 3 then some (h, m, s, digitsToNat r6 * 1000)
        else if r6.all Char.isDigit && r6.length = 6 then some (h, m, s, digitsToNat r6)
        else none
      | _ => none
    | _ => none
  | _ => none

/-- Split the time string at the first `-` (else the first `+`), as
CPython's `_parse_isoformat_time` does to locate the offset. -/
def splitTz (t : List Char) : List Char × Option (Bool × List Char) :=
  match findSub t ['-'] with
  | some i => (t.take i, some (true, t.drop (i + 1)))
  | none =>
    match findSub t ['+'] with
    | some i => (t.take i, some (false, t.drop (i + 1)))
    | none => (t, none)

/-- Model of Python 3.10 `datetime.fromisoformat`; `none` = `ValueError`.
Offsets with a non-zero seconds component are not representable in
`PyDateTime` and are rejected (never produced by this engine). -/
def pyFromIso (s : List Char) : Option PyDateTime := do
  let (y, r1) ← readNDigits 4 s
  let r2 ← expectChar '-' r1
  let (mo, r3) ← readNDigits 2 r2
  let r4 ← expectChar '-' r3
  let (d, r5) ← readNDigits 2 r4
  if !(1 ≤ mo && mo ≤ 12 && 1 ≤ d && d ≤ daysInMonth y mo && 1 ≤ y && y ≤ 9999) then
    none
  else
    match r5 with
    | [] => some ⟨y, mo, d, 0, 0, 0, 0, none⟩
    | _sep :: tstr => do
      let (timestr, tz) := splitTz tstr
      let (h, mi, se, us) ← parseHMSF timestr
      if !(h ≤ 23 && mi ≤ 59 && se ≤ 59) then none
      else
        match tz with
        | none => some ⟨y, mo, d, h, mi, se, us, none⟩
        | some (neg, tzstr) => do
          if !(tzstr.length = 5 || tzstr.length = 8) then none
          else do
            let (th, tmi, tse, tus) ← parseHMSF tzstr
            if tse ≠ 0 || tus ≠ 0 then none
            else
              let off : Int := (th : Int) * 60 + (tmi : Int)
              if off ≥ 1440 then none
              else some ⟨y, mo, d, h, mi, se, us, some (if neg then -off else off)⟩

/-! ### `Cursor._parse_literal` -/

/-- Prefix match of `DATETIME\s*\(\s*'([^']*)'\s*\)` (case-insensitive),
returning the quoted capture. -/
def matchDatetimeLit (s : List Char) : Option (List Char) := do
  guard (hasPrefixCI "DATETIME".data s)
  let r := (s.drop 8).dropWhile pyIsSpace
  let r ← expectChar '(' r
  let r := r.dropWhile pyIsSpace
  let r ← expectChar '\'' r
  let cap := r.takeWhile (· ≠ '\'')
  let r ← expectChar '\'' (r.drop cap.length)
  let r := r.dropWhile pyIsSpace
  let _ ← expectChar ')' r
  some cap

/-- Prefix match of `(\d{4}-\d{2}-\d{2}T\d{2}:\d{2}:\d{2})\.(\d+)(.*)`
(no DOTALL: the final capture stops at the first newline and any remainder
is dropped from the recomposed string). -/
def matchStamp (s : List Char) : Option (List Char × List Char × List Char) := do
  let head := s.take 19
  let (_, r1) ← readNDigits 4 s
  let r2 ← expectChar '-' r1
  let (_, r3) ← readNDigits 2 r2
  let r4 ← expectChar '-' r3
  let (_, r5) ← readNDigits 2 r4
  let r6 ← expectChar 'T' r5
  let (_, r7) ← readNDigits 2 r6
  let r8 ← expectChar ':' r7
  let (_, r9) ← readNDigits 2 r8
  let r10 ← expectChar ':' r9
  let (_, r11) ← readNDigits 2 r10
  let r12 ← expectChar '.' r11
  let (frac, r13) := readDigitRun r12
  if frac.isEmpty then none
  else some (head, frac, r13.takeWhile (· ≠ '\n'))

/-- The fractional-seconds normalization in `Cursor._parse_literal`: when
the stamp pattern matches, the fraction is truncated/padded to exactly 6
digits before `fromisoformat` is called. -/
def normalizeFrac (ts : List Char) : List Char :=
  match matchStamp ts with
  | some (head, frac, tail) =>
    let frac6 := (frac.take 6) ++ List.replicate (6 - (frac.take 6).length) '0'
    head ++ '.' :: (frac6 ++ tail)
  | none => ts

/-- `Cursor._parse_literal`.  An `error` result models an uncaught
`ValueError` escaping from `datetime.fromisoformat`. -/
def parseLiteral (lit0 : List Char) : Except Unit Value :=
  let lit := strip lit0
  match matchDatetimeLit lit with
  | some ts0 =>
    let ts1 := if ts0.getLast? = some 'Z' then replaceAll ts0 ['Z'] "+00:00".data else ts0
    let ts2 := normalizeFrac ts1
    match pyFromIso ts2 with
    | some t => .ok (.vTime t)
    | none => .error ()
  | none =>
    if lit.length ≥ 1 &&
        ((lit.head? = some '\'' && lit.getLast? = some '\'') ||
         (lit.head? = some '"' && lit.getLast? = some '"')) then
      .ok (.vStr ⟨(lit.drop 1).dropLast⟩)
    else if pyUpper lit = "TRUE".data then .ok (.vBool true)
    else if pyUpper lit = "FALSE".data then .ok (.vBool false)
    else if pyUpper lit = "NULL".data then .ok .vNull
    else if lit.contains '.' then
      match pyFloat lit with
      | some q => .ok (.vFloat q)
      | none => .ok (.vStr ⟨lit⟩)
    else
      match pyInt lit with
      | some n => .ok (.vInt n)
      | none => .ok (.vStr ⟨lit⟩)

/-- `Cursor._parse_value_list` : split on commas, strip, parse each. -/
def parseValueList (valuesStr : List Char) : Except Unit (List Value) :=
  (splitOnChar ',' valuesStr).mapM (fun v => parseLiteral (strip v))

/-! ### The WHERE-clause evaluator (`Cursor._eval_*`) -/

/-- UTF-8 encoding of a code point (used by `str.encode`). -/
def utf8Bytes (c : Char) : List Nat :=
  let n := c.toNat
  if n < 0x80 then [n]
  else if n < 0x800 then [0xC0 + n / 64, 0x80 + n % 64]
  else if n < 0x10000 then [0xE0 + n / 4096, 0x80 + n / 64 % 64, 0x80 + n % 64]
  else [0xF0 + n / 262144, 0x80 + n / 4096 % 64, 0x80 + n / 64 % 64, 0x80 + n % 64]

/-- `blob_str.encode("latin-1")`, falling back to `.encode("utf-8")` when a
code point exceeds latin-1 (as `_eval_simple_condition` does). -/
def encodePyBytes (s : List Char) : List Nat :=
  if s.all (fun c => c.toNat ≤ 255) then s.map Char.toNat
  else s.flatMap utf8Bytes

def isNullV : Value → Bool
  | .vNull => true
  | _ => false

/-- `context.get(field)` : Python returns `None` for a missing key, which is
indistinguishable from a stored `None`. -/
def ctxGet (ctx : List (String × Value)) (k : String) : Value :=
  match ctx.find? (fun p => p.1 = k) with
  | some p => p.2
  | none => .vNull

/-- Python dict insertion (`context[name] = row[i]`) : overwrite in place. -/
def ctxInsert (ctx : List (String × Value)) (k : String) (v : Value) :
    List (String × Value) :=
  if ctx.any (fun p => p.1 = k) then
    ctx.map (fun p => if p.1 = k then (k, v) else p)
  else ctx ++ [(k, v)]

/-- The `context` built by `_evaluate_where`: names are paired with row
cells positionally; names beyond the row length are skipped. -/
def buildCtx (fieldNames : List String) (row : List Value) : List (String × Value) :=
  (fieldNames.zip row).foldl (fun ctx p => ctxInsert ctx p.1 p.2) []

/-- Word character (or not) at index `i`; out of range counts as non-word
(start/end of string is a `\b` boundary). -/
def nonWordAt (s : List Char) (i : Nat) : Bool :=
  match s.get? i with
  | some c => !isWordChar c
  | none => true

/-- `\w+` at the front: the (maximal, nonempty) word-character run. -/
def takeFieldName (s : List Char) : Option (List Char × List Char) :=
  let w := s.takeWhile isWordChar
  if w.isEmpty then none else some (w, s.drop w.length)

/-- Prefix match of
`__key__\s*=\s*KEY\s*\(\s*\w+\s*,\s*(?:'([^']*)'|(\d+))\s*\)` (IGNORECASE);
returns `Sum.inl name` or `Sum.inr digits`. -/
def matchKeyEq (s : List Char) : Option (Sum (List Char) (List Char)) := do
  guard (hasPrefixCI "__KEY__".data s)
  let r := (s.drop 7).dropWhile pyIsSpace
  let r ← expectChar '=' r
  let r := r.dropWhile pyIsSpace
  guard (hasPrefixCI "KEY".data r)
  let r := (r.drop 3).dropWhile pyIsSpace
  let r ← expectChar '(' r
  let r := r.dropWhile pyIsSpace
  let (_, r) ← takeFieldName r
  let r := r.dropWhile pyIsSpace
  let r ← expectChar ',' r
  let r := r.dropWhile pyIsSpace
  match r with
  | '\'' :: r2 =>
    let cap := r2.takeWhile (· ≠ '\'')
    let r3 ← expectChar '\'' (r2.drop cap.length)
    let r4 := r3.dropWhile pyIsSpace
    let _ ← expectChar ')' r4
    some (Sum.inl cap)
  | _ =>
    let (ds, r2) := readDigitRun r
    if ds.isEmpty then none
    else do
      let r3 := r2.dropWhile pyIsSpace
      let _ ← expectChar ')' r3
      some (Sum.inr ds)

/-- Prefix match of `(\w+)\s*=\s*BLOB\s*\('(.*?)'\)` (IGNORECASE, DOTALL) or
its `!=` variant; the lazy capture runs to the first `')` sequence. -/
def matchBlobCmp (neq : Bool) (s : List Char) : Option (List Char × List Char) := do
  let (field, r) ← takeFieldName s
  let r := r.dropWhile pyIsSpace
  let r ← (if neq then
      (do let r ← expectChar '!' r; expectChar '=' r)
    else expectChar '=' r)
  let r := r.dropWhile pyIsSpace
  guard (hasPrefixCI "BLOB".data r)
  let r := (r.drop 4).dropWhile pyIsSpace
  let r ← expectChar '(' r
  let r ← expectChar '\'' r
  let i ← findSub r ['\'', ')']
  some (field, r.take i)

/-- Prefix match of `(\w+)\s+NOT\s+IN\s+(?:ARRAY\s*)?\(([^)]+)\)` (I), or
without `NOT`; returns (field, list body). -/
def matchInList (negated : Bool) (s : List Char) : Option (List Char × List Char) := do
  let (field, r) ← takeFieldName s
  let r1 := r.dropWhile pyIsSpace
  guard (r1.length < r.length)    -- `\s+` : at least one space
  let r ←
    if negated then do
      guard (hasPrefixCI "NOT".data r1)
      let r2 := (r1.drop 3).dropWhile pyIsSpace
      guard (r2.length < (r1.drop 3).length)
      pure r2
    else pure r1
  guard (hasPrefixCI "IN".data r)
  let r2 := (r.drop 2).dropWhile pyIsSpace
  guard (r2.length < (r.drop 2).length)
  let r3 :=
    if hasPrefixCI "ARRAY".data r2 then (r2.drop 5).dropWhile pyIsSpace else r2
  let r4 ← expectChar '(' r3
  let body := r4.takeWhile (· ≠ ')')
  if body.isEmpty then none
  else do
    let _ ← expectChar ')' (r4.drop body.length)
    some (field, body)

/-- Prefix match of `(\w+)\s*OP\s*(.+)` for a comparison operator; the
final capture is the rest of the first line (no DOTALL) and must be
nonempty. -/
def matchCmp (op : List Char) (s : List Char) : Option (List Char × List Char) := do
  let (field, r) ← takeFieldName s
  let r := r.dropWhile pyIsSpace
  guard (hasPrefixCh op r)
  let r := (r.drop op.length).dropWhile pyIsSpace
  let rest := r.takeWhile (· ≠ '\n')
  if rest.isEmpty then none else some (field, rest)

/-- `(\w+)\s*(?:!=|<>)\s*(.+)`. -/
def matchNeq (s : List Char) : Option (List Char × List Char) :=
  match matchCmp "!=".data s with
  | some r => some r
  | none => matchCmp "<>".data s

/-- `Cursor._eval_simple_condition`, branch for branch.  The final
fall-through (`return True`) is the source's behavior for a condition
matching none of the recognized comparison shapes. -/
def evalSimpleCondition (ctx : List (String × Value)) (cond0 : List Char) :
    Except Unit Bool :=
  let cond := strip cond0
  match matchKeyEq cond with
  | some cap =>
    let a := ctxGet ctx "key"
    let fv := if pyTruthy a then a else ctxGet ctx "__key__"
    match fv with
    | .vKeyPath ps =>
      match ps.getLast? with
      | some last =>
        (match cap with
        | .inl nm => .ok (decide (last.nameVal = some ⟨nm⟩))
        | .inr ds =>
          -- `str(last_path.get("id")) == key_id`
          let idStr := match last.idVal with
            | some n => toString n
            | none => "None"
          .ok (decide (idStr = (⟨ds⟩ : String))))
      | none => .ok false
    | _ => .ok false
  | none =>
  match matchBlobCmp false cond with
  | some (field, blobStr) =>
    let bs := encodePyBytes blobStr
    match ctxGet ctx ⟨field⟩ with
    | .vBytes fb => .ok (decide (fb = bs))
    | _ => .ok false
  | none =>
  match matchBlobCmp true cond with
  | some (field, blobStr) =>
    let bs := encodePyBytes blobStr
    match ctxGet ctx ⟨field⟩ with
    | .vBytes fb => .ok (decide (fb ≠ bs))
    | _ => .ok true
  | none =>
  match matchInList true cond with
  | some (field, body) => do
    let values ← parseValueList body
    let fv := ctxGet ctx ⟨field⟩
    .ok (!(values.any (fun v => pyEq v fv)))
  | none =>
  match matchInList false cond with
  | some (field, body) => do
    let values ← parseValueList body
    let fv := ctxGet ctx ⟨field⟩
    .ok (values.any (fun v => pyEq v fv))
  | none =>
  match matchNeq cond with
  | some (field, rhs) => do
    let value ← parseLiteral (strip rhs)
    .ok (!pyEq (ctxGet ctx ⟨field⟩) value)
  | none =>
  match matchCmp ">=".data cond with
  | some (field, rhs) => do
    let value ← parseLiteral (strip rhs)
    let fv := ctxGet ctx ⟨field⟩
    if !isNullV fv && !isNullV value then
      match pyGe fv value with
      | some b => .ok b
      | none => .ok false        -- TypeError: fail closed
    else .ok false
  | none =>
  match matchCmp "<=".data cond with
  | some (field, rhs) => do
    let value ← parseLiteral (strip rhs)
    let fv := ctxGet ctx ⟨field⟩
    if !isNullV fv && !isNullV value then
      match pyLe fv value with
      | some b => .ok b
      | none => .ok false
    else .ok false
  | none =>
  match matchCmp ">".data cond with
  | some (field, rhs) => do
    let value ← parseLiteral (strip rhs)
    let fv := ctxGet ctx ⟨field⟩
    if !isNullV fv && !isNullV value then
      match pyGt fv value with
      | some b => .ok b
      | none => .ok false
    else .ok false
  | none =>
  match matchCmp "<".data cond with
  | some (field, rhs) => do
    let value ← parseLiteral (strip rhs)
    let fv := ctxGet ctx ⟨field⟩
    if !isNullV fv && !isNullV value then
      match pyLt fv value with
      | some b => .ok b
      | none => .ok false
    else .ok false
  | none =>
  match matchCmp "=".data cond with
  | some (field, rhs) => do
    let value ← parseLiteral (strip rhs)
    .ok (pyEq (ctxGet ctx ⟨field⟩) value)
  | none =>
  .ok true

/-- `re.match(rf"\b{op}\b", slice)` as used by `_split_on_operator`: the
slice starts at the candidate position, so the left boundary degenerates to
"slice begins with a word character" and only the right boundary is
checked. -/
def opMatchAt (op : List Char) (s : List Char) : Bool :=
  hasPrefixCI op s && nonWordAt s op.length

/-- `Cursor._split_on_operator` (fuelled; entry fuel exceeds the length). -/
def splitGo (op : List Char) : Nat → List Char → Int → List Char →
    List (List Char) → List (List Char)
  | 0, rest, _, cur, parts =>
    let cur := cur ++ rest
    if (strip cur).isEmpty then parts else parts ++ [strip cur]
  | _ + 1, [], _, cur, parts =>
    if (strip cur).isEmpty then parts else parts ++ [strip cur]
  | f + 1, c :: cs, depth, cur, parts =>
    if c = '(' then splitGo op f cs (depth + 1) (cur ++ [c]) parts
    else if c = ')' then splitGo op f cs (depth - 1) (cur ++ [c]) parts
    else if depth = 0 && opMatchAt op (c :: cs) then
      splitGo op f (List.drop op.length (c :: cs)) depth [] (parts ++ [strip cur])
    else splitGo op f cs depth (cur ++ [c]) parts

def splitOnOperator (cond : List Char) (op : List Char) : List (List Char) :=
  splitGo op (cond.length + 1) cond 0 [] []

/-- `re.search(r"\b{w}\b", s, IGNORECASE)` with genuine boundaries on both
sides (`re.search` scans every position of the uncut string). -/
def wordMatchAt (w : List Char) (s : List Char) (i : Nat) : Bool :=
  (i = 0 || nonWordAt s (i - 1)) && hasPrefixCI w (s.drop i) &&
    nonWordAt s (i + w.length)

def wordSearch (w : List Char) (s : List Char) : Bool :=
  (List.range (s.length + 1)).any (fun i => wordMatchAt w s i)

/-- Index at which the parenthesis opened first is closed (the `depth == 0`
scan of `_eval_condition`). -/
def firstParenClose (s : List Char) : Option Nat :=
  go s 0 0 where
  go : List Char → Nat → Int → Option Nat
    | [], _, _ => none
    | c :: cs, i, d =>
      if c = '(' then go cs (i + 1) (d + 1)
      else if c = ')' then
        if d - 1 = 0 then some i else go cs (i + 1) (d - 1)
      else go cs (i + 1) d

/-- Short-circuiting `any` over a generator (an exception raised by a later
element is never reached once a `True` is seen). -/
def pyAnyE (f : α → Except Unit Bool) : List α → Except Unit Bool
  | [] => .ok false
  | x :: xs => do
    if (← f x) then .ok true else pyAnyE f xs

def pyAllE (f : α → Except Unit Bool) : List α → Except Unit Bool
  | [] => .ok true
  | x :: xs => do
    if (← f x) then pyAllE f xs else .ok false

/-- `Cursor._eval_condition` (fuelled: every recursive call strictly
shrinks the condition, so fuel `length + 1` never runs out). -/
def evalCondition : Nat → List (String × Value) → List Char → Except Unit Bool
  | 0, _, _ => .error ()
  | f + 1, ctx, cond0 =>
    let cond := strip cond0
    let parenRedex :=
      cond.head? = some '(' && cond.getLast? = some ')' &&
        firstParenClose cond = some (cond.length - 1)
    if parenRedex then evalCondition f ctx ((cond.drop 1).dropLast)
    else
      let orParts :=
        if wordSearch "OR".data cond then splitOnOperator cond "OR".data else []
      if orParts.length > 1 then pyAnyE (evalCondition f ctx) orParts
      else
        let andParts :=
          if wordSearch "AND".data cond then splitOnOperator cond "AND".data else []
        if andParts.length > 1 then pyAllE (evalCondition f ctx) andParts
        else evalSimpleCondition ctx cond

/-- `Cursor._evaluate_where` : any exception is caught and the row is
excluded. -/
def evaluateWhere (row : List Value) (fieldNames : List String)
    (whereClause : List Char) : Bool :=
  match evalCondition (whereClause.length + 1) (buildCtx fieldNames row) whereClause with
  | .ok b => b
  | .error _ => false

/-! ### Fallback filtering plumbing -/

/-- End of the WHERE clause: the smallest positive index of an end pattern
found at or after `w`, else the statement length
(`_apply_client_side_filter` / `_extract_base_query_for_filter`). -/
def whereEndIdx (upper : List Char) (w : Nat) (len : Nat) : Nat :=
  [" ORDER BY ", " LIMIT ", " OFFSET "].foldl
    (fun e pat =>
      match findSubFrom upper pat.data w with
      | some idx => if 0 < idx && idx < e then idx else e
      | none => e)
    len

/-- The WHERE clause text located by `_apply_client_side_filter`
(`none` when `upper.find(" WHERE ") < 0`). -/
def whereClauseOf (stmt : List Char) : Option (List Char) :=
  let upper := pyUpper stmt
  match findSub upper " WHERE ".data with
  | none => none
  | some w =>
    let e := whereEndIdx upper w stmt.length
    some (strip ((stmt.drop (w + 7)).take (e - (w + 7))))

/-- The `for row in rows: if ...: filtered_rows.append(row)` loop. -/
def filterLoopAcc (p : α → Bool) (acc : List α) : List α → List α
  | [] => acc
  | r :: rs => filterLoopAcc p (if p r then acc ++ [r] else acc) rs

/-- `Cursor._apply_client_side_filter` (the Python takes the fields dict
and uses only its key list, passed here directly). -/
def applyClientSideFilter (rows : List (List Value)) (fieldNames : List String)
    (stmt : List Char) : List (List Value) :=
  match whereClauseOf stmt with
  | none => rows
  | some wc => filterLoopAcc (fun row => evaluateWhere row fieldNames wc) [] rows

/-- `\bBLOB\s*\(` at position `i` (on the uppercased statement). -/
def blobMatchAt (s : List Char) (i : Nat) : Bool :=
  (i = 0 || nonWordAt s (i - 1)) && hasPrefixCh "BLOB".data (s.drop i) &&
    (((s.drop (i + 4)).dropWhile pyIsSpace).head? = some '(')

/-- `Cursor._needs_client_side_filter` : the rewritten statement still
contains `OR` (as a word) or a `BLOB(` literal. -/
def needsClientSideFilter (stmt : List Char) : Bool :=
  let upper := pyUpper stmt
  (List.range (upper.length + 1)).any (fun i => wordMatchAt "OR".data upper i) ||
    (List.range (upper.length + 1)).any (fun i => blobMatchAt upper i)

/-- `Cursor._extract_base_query_for_filter` : remove the WHERE clause
(when found at a positive index), keeping ORDER BY / LIMIT / OFFSET. -/
def extractBaseQueryForFilter (s : List Char) : List Char :=
  let upper := pyUpper s
  match findSub upper " WHERE ".data with
  | some w =>
    if 0 < w then
      let e := whereEndIdx upper w s.length
      strip (s.take w ++ s.drop e)
    else s
  | none => s

/-! ### The SQL→GQL rewrite (`Cursor._convert_sql_to_gql`)

Each `re.sub` is embedded as a left-to-right, non-overlapping scan
(`subAll`): at each position a prefix matcher either consumes `k ≥ 1`
source characters and emits a replacement, or the scan moves on one
character.  The previous *source* character is threaded through for `\b`
look-behinds, as `re` computes boundaries on the original string. -/

/-- A prefix matcher: previous source character and remaining text in,
`(consumed length, replacement)` out. -/
abbrev Matcher := Option Char → List Char → Option (Nat × List Char)

def subAllGo (m : Matcher) : Nat → Option Char → List Char → List Char
  | 0, _, rest => rest
  | _ + 1, _, [] => []
  | f + 1, prev, c :: cs =>
    match m prev (c :: cs) with
    | some (k, repl) =>
      let k' := min (max k 1) (cs.length + 1)
      repl ++ subAllGo m f ((List.take k' (c :: cs)).getLast?) (List.drop k' (c :: cs))
    | none => c :: subAllGo m f (some c) cs

def subAll (m : Matcher) (s : List Char) : List Char := subAllGo m s.length none s

/-- Left `\b` : the previous character is absent or a non-word character. -/
def bL (prev : Option Char) : Bool :=
  match prev with
  | none => true
  | some c => !isWordChar c

/-- Consume `pat` case-insensitively (`pat` in upper case), else fail. -/
def eatCI (pat : List Char) (s : List Char) : Option (List Char) :=
  if hasPrefixCI pat s then some (s.drop pat.length) else none

/-- Consume `\s+`. -/
def eatWs1 (s : List Char) : Option (List Char) :=
  let r := s.dropWhile pyIsSpace
  if r.length < s.length then some r else none

/-- `\s+` → `" "` (whitespace normalization). -/
def mWs : Matcher := fun _ s =>
  let w := s.takeWhile pyIsSpace
  if w.isEmpty then none else some (w.length, [' '])

/-- Whole whitespace-normalization step: `re.sub(r"\s+", " ", s).strip()`. -/
def normWs (s : List Char) : List Char := strip (subAll mWs s)

/-- `<>` → `!=`. -/
def mNeqFix : Matcher := fun _ s =>
  if hasPrefixCh "<>".data s then some (2, "!=".data) else none

/-- `\bNOT\s+(\w+)\s+IN\s*\(` → `\1 NOT IN (`. -/
def mNotIn : Matcher := fun prev s => do
  guard (bL prev)
  let r ← eatCI "NOT".data s
  let r ← eatWs1 r
  let (g1, r) ← takeFieldName r
  let r ← eatWs1 r
  let r ← eatCI "IN".data r
  let r := r.dropWhile pyIsSpace
  let r ← expectChar '(' r
  some (s.length - r.length, g1 ++ " NOT IN (".data)

/-- `,\s*ROW_NUMBER\s*\(\s*\)\s*OVER\s*\([^)]*\)\s*(?:AS\s+\w+)?` → `""`. -/
def mRowNumber : Matcher := fun _ s => do
  let r ← expectChar ',' s
  let r := r.dropWhile pyIsSpace
  let r ← eatCI "ROW_NUMBER".data r
  let r := r.dropWhile pyIsSpace
  let r ← expectChar '(' r
  let r := r.dropWhile pyIsSpace
  let r ← expectChar ')' r
  let r := r.dropWhile pyIsSpace
  let r ← eatCI "OVER".data r
  let r := r.dropWhile pyIsSpace
  let r ← expectChar '(' r
  let body := r.takeWhile (· ≠ ')')
  let r ← expectChar ')' (r.drop body.length)
  let r := r.dropWhile pyIsSpace
  let r :=
    match (do
        let r2 ← eatCI "AS".data r
        let r2 ← eatWs1 r2
        let (_, r2) ← takeFieldName r2
        pure r2 : Option (List Char)) with
    | some r2 => r2
    | none => r
  some (s.length - r.length, [])

/-- `\bWHERE\s+_row_\w+\s*=\s*1\b` → `""`. -/
def mWhereRow : Matcher := fun prev s => do
  guard (bL prev)
  let r ← eatCI "WHERE".data s
  let r ← eatWs1 r
  let r ← eatCI "_ROW_".data r
  let (_, r) ← takeFieldName r
  let r := r.dropWhile pyIsSpace
  let r ← expectChar '=' r
  let r := r.dropWhile pyIsSpace
  let r ← expectChar '1' r
  guard (nonWordAt r 0)
  some (s.length - r.length, [])

/-- `\bIN\s*\[([^\]]*)\]` → `IN ARRAY(\1)`. -/
def mInBracket : Matcher := fun prev s => do
  guard (bL prev)
  let r ← eatCI "IN".data s
  let r := r.dropWhile pyIsSpace
  let r ← expectChar '[' r
  let cap := r.takeWhile (· ≠ ']')
  let r ← expectChar ']' (r.drop cap.length)
  some (s.length - r.length, "IN ARRAY(".data ++ cap ++ [')'])

/-- `\bIN\s*\((?![\s]*SELECT\b)` → `IN ARRAY(`. -/
def mInParen : Matcher := fun prev s => do
  guard (bL prev)
  let r ← eatCI "IN".data s
  let r := r.dropWhile pyIsSpace
  let r ← expectChar '(' r
  let look := r.dropWhile pyIsSpace
  guard (!(hasPrefixCI "SELECT".data look && nonWordAt look 6))
  some (s.length - r.length, "IN ARRAY(".data)

/-- `\bARRAY\s*\(\s*ARRAY\s*\(` → `ARRAY(`. -/
def mDblArray : Matcher := fun prev s => do
  guard (bL prev)
  let r ← eatCI "ARRAY".data s
  let r := r.dropWhile pyIsSpace
  let r ← expectChar '(' r
  let r := r.dropWhile pyIsSpace
  let r ← eatCI "ARRAY".data r
  let r := r.dropWhile pyIsSpace
  let r ← expectChar '(' r
  some (s.length - r.length, "ARRAY(".data)

/-- `\bWHERE\s+NULL\b` → `""`. -/
def mWhereNull : Matcher := fun prev s => do
  guard (bL prev)
  let r ← eatCI "WHERE".data s
  let r ← eatWs1 r
  let r ← eatCI "NULL".data r
  guard (nonWordAt r 0)
  some (s.length - r.length, [])

/-- Prefix match of `LIMIT\s+FIRST\s*\(\s*(\d+)\s*,\s*(\d+)\s*\)`;
returns (consumed, offset digits, count digits). -/
def limitFirstPrefix (s : List Char) : Option (Nat × List Char × List Char) := do
  let r ← eatCI "LIMIT".data s
  let r ← eatWs1 r
  let r ← eatCI "FIRST".data r
  let r := r.dropWhile pyIsSpace
  let r ← expectChar '(' r
  let r := r.dropWhile pyIsSpace
  let (off, r) := readDigitRun r
  if off.isEmpty then none else do
  let r := r.dropWhile pyIsSpace
  let r ← expectChar ',' r
  let r := r.dropWhile pyIsSpace
  let (cnt, r) := readDigitRun r
  if cnt.isEmpty then none else do
  let r := r.dropWhile pyIsSpace
  let r ← expectChar ')' r
  some (s.length - r.length, off, cnt)

/-- `re.search` for the LIMIT FIRST pattern (no word boundary in the
source pattern). -/
def searchLimitFirst (s : List Char) : Option (List Char × List Char) :=
  (List.range (s.length + 1)).findSome? (fun i => (limitFirstPrefix (s.drop i)).map (·.2))

def mLimitFirst (off cnt : List Char) : Matcher := fun _ s =>
  (limitFirstPrefix s).map
    (fun p => (p.1, "LIMIT ".data ++ cnt ++ " OFFSET ".data ++ off))

/-- `re.search(r"\bFROM\s+(\w+)", s, I)` : the target kind. -/
def tableMatchAt (s : List Char) (i : Nat) : Option (List Char) := do
  guard (i = 0 || nonWordAt s (i - 1))
  let r ← eatCI "FROM".data (s.drop i)
  let r ← eatWs1 r
  let (w, _) ← takeFieldName r
  some w

def searchTable (s : List Char) : Option (List Char) :=
  (List.range (s.length + 1)).findSome? (fun i => tableMatchAt s i)

/-- `\bDISTINCT\s+ON\s*\([^)]*\)\s*` → `""`. -/
def mDistinctOn : Matcher := fun prev s => do
  guard (bL prev)
  let r ← eatCI "DISTINCT".data s
  let r ← eatWs1 r
  let r ← eatCI "ON".data r
  let r := r.dropWhile pyIsSpace
  let r ← expectChar '(' r
  let body := r.takeWhile (· ≠ ')')
  let r ← expectChar ')' (r.drop body.length)
  let r := r.dropWhile pyIsSpace
  some (s.length - r.length, [])

/-- `\b{table}\.id\b` → `__key__`. -/
def mTableIdDot (t : List Char) : Matcher := fun prev s => do
  guard (bL prev)
  let r ← eatCI (pyUpper t) s
  let r ← expectChar '.' r
  let r ← eatCI "ID".data r
  guard (nonWordAt r 0)
  some (s.length - r.length, "__key__".data)

/-- `\bid\b` → `__key__`. -/
def mIdWord : Matcher := fun prev s => do
  guard (bL prev)
  let r ← eatCI "ID".data s
  guard (nonWordAt r 0)
  some (s.length - r.length, "__key__".data)

/-- Prefix match of
`(SELECT\s+(?:DISTINCT\s+(?:ON\s*\([^)]*\)\s*)?)?)(.*)` on the SELECT
clause; returns (matched prefix, first-line remainder). -/
def matchSelectPrefix (s : List Char) : Option (List Char × List Char) := do
  let r ← eatCI "SELECT".data s
  let r ← eatWs1 r
  let r :=
    match (do
        let r2 ← eatCI "DISTINCT".data r
        let r2 ← eatWs1 r2
        let r3 :=
          match (do
              let r4 ← eatCI "ON".data r2
              let r4 := r4.dropWhile pyIsSpace
              let r4 ← expectChar '(' r4
              let body := r4.takeWhile (· ≠ ')')
              let r4 ← expectChar ')' (r4.drop body.length)
              pure (r4.dropWhile pyIsSpace) : Option (List Char)) with
          | some r4 => r4
          | none => r2
        pure r3 : Option (List Char)) with
    | some r2 => r2
    | none => r
  let pre := s.take (s.length - r.length)
  some (pre, r.takeWhile (· ≠ '\n'))

/-- `re.match(r"^(id|__key__)$", c, I)`. -/
def isKeyColName (c : List Char) : Bool :=
  pyUpper c = "ID".data || pyUpper c = "__KEY__".data

def joinComma (xs : List (List Char)) : List Char :=
  match xs with
  | [] => []
  | x :: rest => x ++ rest.foldl (fun acc y => acc ++ ", ".data ++ y) []

/-- The bare-`id` handling block: prune `id`/`__key__` from the projection
list and map `id` → `__key__` in everything after FROM. -/
def fixSelectAndId (stmt : List Char) : List Char :=
  let upper := pyUpper stmt
  match findSub upper " FROM ".data with
  | some fp =>
    if 0 < fp then
      let selectClause := stmt.take fp
      let fromRest := stmt.drop fp
      let sc :=
        match matchSelectPrefix selectClause with
        | some (pre, colsStr) =>
          let cols := (splitOnChar ',' colsStr).map strip
          let nonKey := cols.filter (fun c => !isKeyColName c)
          if nonKey.isEmpty then pre ++ "__key__".data
          else if nonKey.length < cols.length then pre ++ joinComma nonKey
          else selectClause
        | none => selectClause
      sc ++ subAll mIdWord fromRest
    else subAll mIdWord stmt
  | none => subAll mIdWord stmt

/-- `re.sub(r"^SELECT\s+", "", head, I).strip()`. -/
def degradeSelectCols (head : List Char) : List Char :=
  let stripped :=
    match (do
        let r ← eatCI "SELECT".data head
        eatWs1 r : Option (List Char)) with
    | some r => r
    | none => head
  strip stripped

/-- The projection-degrade step: a WHERE clause after FROM together with a
non-`*`, non-`__KEY__`, non-DISTINCT projection collapses the statement to
`SELECT * FROM ...`. -/
def degradeProjection (stmt : List Char) : List Char :=
  let upper := pyUpper stmt
  match findSub upper " FROM ".data, findSub upper " WHERE ".data with
  | some fp, some wp =>
    if 0 < fp && fp < wp then
      let selCols := degradeSelectCols (stmt.take fp)
      if selCols ≠ "*".data && pyUpper selCols ≠ "__KEY__".data &&
          !hasPrefixCh "DISTINCT".data (pyUpper selCols) then
        "SELECT * ".data ++ stmt.drop (fp + 1)
      else stmt
    else stmt
  | _, _ => stmt

/-- Prefix match of `\b(?:id|__key__)\s*=\s*(\d+)` (the left boundary is
checked by the caller); returns (consumed, digits). -/
def idEqPrefix (s : List Char) : Option (Nat × List Char) :=
  let tail := fun (r : List Char) => do
    let r := r.dropWhile pyIsSpace
    let r ← expectChar '=' r
    let r := r.dropWhile pyIsSpace
    let (ds, r) := readDigitRun r
    if ds.isEmpty then none else some (s.length - r.length, ds)
  match (do let r ← eatCI "ID".data s; tail r : Option (Nat × List Char)) with
  | some res => some res
  | none => do
    let r ← eatCI "__KEY__".data s
    tail r

/-- `re.search(r"\bWHERE\b.*\b(?:id|__key__)\s*=\s*(\d+)", s, I)` : the
first WHERE word followed (on the same line, `.` excludes newlines) by an
id-equality; the greedy `.*` makes the *last* such id-equality the one
captured. -/
def searchIdWhere (s : List Char) : Option (List Char) :=
  (List.range (s.length + 1)).findSome? (fun i => do
    guard (wordMatchAt "WHERE".data s i)
    let after := i + 5
    let lineEnd :=
      match findSubFrom s ['\n'] after with
      | some j => j
      | none => s.length
    ((List.range (lineEnd + 1)).filter (fun j => after ≤ j)).foldl
      (fun best j =>
        match (do
            guard (j = 0 || nonWordAt s (j - 1))
            (idEqPrefix (s.drop j)).map (·.2) : Option (List Char)) with
        | some ds => some ds
        | none => best)
      none)

def mIdEq (t idv : List Char) : Matcher := fun prev s => do
  guard (bL prev)
  let (k, _) ← idEqPrefix s
  some (k, "__key__ = KEY(".data ++ t ++ ", ".data ++ idv ++ [')'])

/-- `\bAS\s+\w+` → `""`. -/
def mAs : Matcher := fun prev s => do
  guard (bL prev)
  let r ← eatCI "AS".data s
  let r ← eatWs1 r
  let (_, r) ← takeFieldName r
  some (s.length - r.length, [])

/-- `\b{table}\.(?!__)` → `""`. -/
def mTableDot (t : List Char) : Matcher := fun prev s => do
  guard (bL prev)
  let r ← eatCI (pyUpper t) s
  let r ← expectChar '.' r
  guard (!hasPrefixCh "__".data r)
  some (s.length - r.length, [])

/-- `,\s*,` → `,`. -/
def mCommaComma : Matcher := fun _ s => do
  let r ← expectChar ',' s
  let r := r.dropWhile pyIsSpace
  let r ← expectChar ',' r
  some (s.length - r.length, [','])

/-- `\s*,\s*\bFROM\b` → `" FROM"`. -/
def mCommaFrom : Matcher := fun _ s => do
  let r := s.dropWhile pyIsSpace
  let r ← expectChar ',' r
  let r := r.dropWhile pyIsSpace
  let r ← eatCI "FROM".data r
  guard (nonWordAt r 0)
  some (s.length - r.length, " FROM".data)

/-- `Cursor._convert_sql_to_gql`, rule for rule in source order. -/
def convertSqlToGql (s0 : List Char) : List Char :=
  if hasPrefixCI "AGGREGATE".data (pyUpper (strip s0)) then s0
  else
    let s := normWs s0
    let s := subAll mNeqFix s
    let s := subAll mNotIn s
    let s := subAll mRowNumber s
    let s := subAll mWhereRow s
    let s := subAll mInBracket s
    let s := subAll mInParen s
    let s := subAll mDblArray s
    let s := subAll mWhereNull s
    let s :=
      match searchLimitFirst s with
      | some (off, cnt) => subAll (mLimitFirst off cnt) s
      | none => s
    let tableName := searchTable s
    let s := subAll mDistinctOn s
    let s :=
      match tableName with
      | some t => subAll (mTableIdDot t) s
      | none => s
    let s := fixSelectAndId s
    let s := degradeProjection s
    let s :=
      match tableName with
      | some t =>
        match searchIdWhere s with
        | some idv => subAll (mIdEq t idv) s
        | none => s
      | none => s
    let s := subAll mAs s
    let s :=
      match tableName with
      | some t => subAll (mTableDot t) s
      | none => s
    let s := normWs s
    let s := subAll mCommaComma s
    let s := subAll mCommaFrom s
    s

/-! ### The Entity Materializer (`ParseEntity`) -/

/-- Type tags (`_types` constants; opaque distinct objects in Python). -/
inductive PropType where
  | nullT | boolT | integerT | float64T | stringT | timestampT | bytesT
  | geopointT | keyT | arrayT | structT
deriving DecidableEq, Repr

/-- The tagged wire union of the JSON response
(`entityResults[_].entity.properties[name]`).  Integer values arrive as
decimal strings and are modelled post-`int()`; blob values arrive as
base64 text and are modelled post-`b64decode`. -/
inductive WireValue where
  | nullValue
  | booleanValue (b : Bool)
  | integerValue (n : Int)
  | doubleValue (q : PyFloat)
  | stringValue (s : String)
  | timestampValue (ts : String)
  | blobValue (bs : List Nat)
  | geoPointValue (m : List (String × PyFloat))
  | keyValue (path : List PathEl)
  | arrayValue (vs : List WireValue)
  | dictValue (m : List (String × WireValue))
  | entityValue (props : List (String × WireValue))
deriving Repr

/-- Raw JSON view of a wire value, used by the opaque
`dictValue`/`entityValue` pass-through branches (no deep typing). -/
def wireRawJsonF : Nat → WireValue → Value
  | 0, _ => .vNull
  | f + 1, w =>
    match w with
    | .nullValue => .vDict [("nullValue", .vNull)]
    | .booleanValue b => .vDict [("booleanValue", .vBool b)]
    | .integerValue n => .vDict [("integerValue", .vStr (toString n))]
    | .doubleValue q => .vDict [("doubleValue", .vFloat q)]
    | .stringValue s => .vDict [("stringValue", .vStr s)]
    | .timestampValue ts => .vDict [("timestampValue", .vStr ts)]
    | .blobValue bs => .vDict [("blobValue", .vBytes bs)]
    | .geoPointValue m =>
        .vDict [("geoPointValue", .vDict (m.map (fun p => (p.1, Value.vFloat p.2))))]
    | .keyValue path => .vDict [("keyValue", .vKeyPath path)]
    | .arrayValue vs =>
        .vDict [("arrayValue", .vList (vs.map (wireRawJsonF f)))]
    | .dictValue m =>
        .vDict [("dictValue", .vDict (m.map (fun p => (p.1, wireRawJsonF f p.2))))]
    | .entityValue props =>
        .vDict [("entityValue", .vDict (props.map (fun p => (p.1, wireRawJsonF f p.2))))]

/-- `ParseEntity.parse_properties` (fuelled for the nested array
recursion; the entry point supplies fuel far beyond any real nesting).
An `error` models an uncaught exception (`fromisoformat` on a bad
timestamp). -/
def parsePropertiesF : Nat → WireValue → Except Unit (Value × Option PropType)
  | 0, _ => .error ()
  | f + 1, w =>
    match w with
    | .nullValue => .ok (.vNull, some .nullT)
    | .booleanValue b => .ok (.vBool b, some .boolT)
    | .integerValue n => .ok (.vInt n, some .integerT)
    | .doubleValue q => .ok (.vFloat q, some .float64T)
    | .stringValue s => .ok (.vStr s, some .stringT)
    | .timestampValue ts =>
      let cs := ts.data
      let normalized :=
        if cs.getLast? = some 'Z' then replaceAll cs ['Z'] "+00:00".data else cs
      (match pyFromIso normalized with
      | some d => .ok (.vTime d, some .timestampT)
      | none => .error ())
    | .blobValue bs => .ok (.vBytes bs, some .bytesT)
    | .geoPointValue m =>
        .ok (.vDict (m.map (fun p => (p.1, Value.vFloat p.2))), some .geopointT)
    | .keyValue path => .ok (.vKeyPath path, some .keyT)
    | .arrayValue vs => do
        let xs ← vs.mapM (fun v => (parsePropertiesF f v).map (·.1))
        .ok (.vList xs, some .arrayT)
    | .dictValue m => .ok (wireRawJsonGet (.dictValue m), some .structT)
    | .entityValue props =>
        .ok (.vDict (props.map (fun p => (p.1, wireRawJsonF 1000000 p.2))), some .structT)
where
  wireRawJsonGet : WireValue → Value
    | .dictValue m => .vDict (m.map (fun p => (p.1, wireRawJsonF 1000000 p.2)))
    | _ => .vNull

def parseProperties (w : WireValue) : Except Unit (Value × Option PropType) :=
  parsePropertiesF 1000000 w

/-- One element of `batch.entityResults`: the entity's properties map and
its `key.path`. -/
structure EntityResult where
  props : List (String × WireValue)
  keyPath : List PathEl
deriving Repr

def lookupProp (props : List (String × WireValue)) (k : String) : Option WireValue :=
  (props.find? (fun p => p.1 = k)).map (·.2)

/-- The union (as a set) of all property names in the batch; list order is
irrelevant (only membership and the sorted view are used). -/
def unionNames (data : List EntityResult) : List String :=
  data.foldl
    (fun acc e =>
      e.props.foldl (fun acc p => if acc.contains p.1 then acc else acc ++ [p.1]) acc)
    []

/-- Stable insertion sort by code point (`sorted` on strings). -/
def insertSorted (x : String) : List String → List String
  | [] => [x]
  | y :: ys => if lexLtCh y.data x.data then y :: insertSorted x ys else x :: y :: ys

def sortStr (xs : List String) : List String := xs.foldr insertSorted []

def pyLowerStr (s : String) : String := ⟨s.data.map Char.toLower⟩

/-- Python dict write `m[k] = v` : overwrite in place, else append. -/
def assocSet (m : List (String × α)) (k : String) (v : α) : List (String × α) :=
  if m.any (fun p => p.1 = k) then
    m.map (fun p => if p.1 = k then (k, v) else p)
  else m ++ [(k, v)]

/-- A field entry: only the name (the key) and the inferred type slot of
the 7-tuple are ever populated. -/
abbrev FieldsMap := List (String × Option PropType)

/-- Fix the field's type on first sighting (`current_field_info[1] is None
or == "UNKNOWN"`; the tags are not strings, so only the `None` test can
fire). -/
def typeUpdate (fields : FieldsMap) (col : String) (t : Option PropType) : FieldsMap :=
  fields.map (fun p => if p.1 = col && p.2 = none then (col, t) else p)

def isKeyAlias (col : String) : Bool :=
  pyLowerStr col = "__key__" || pyLowerStr col = "key"

/-- The per-entity cell loop of `ParseEntity.parse` (shared by both
branches: `cols` is `selected_columns` or `sorted_property_names`, with
key aliases skipped only in the selected branch). -/
def entityCells (skipKeyCols : Bool) (cols : List String) (allNames : List String)
    (e : EntityResult) (cells : List Value) (fields : FieldsMap) :
    Except Unit (List Value × FieldsMap) :=
  match cols with
  | [] => .ok (cells, fields)
  | col :: rest =>
    if skipKeyCols && isKeyAlias col then
      entityCells skipKeyCols rest allNames e cells fields
    else if allNames.contains col then
      match lookupProp e.props col with
      | some pv => do
        let (v, t) ← parseProperties pv
        entityCells skipKeyCols rest allNames e (cells ++ [v]) (typeUpdate fields col t)
      | none => entityCells skipKeyCols rest allNames e (cells ++ [.vNull]) fields
    else
      entityCells skipKeyCols rest allNames e cells fields

/-- The entity loop of `ParseEntity.parse`. -/
def parseRowsGo (includeKey skipKeyCols : Bool) (cols allNames : List String) :
    List EntityResult → List (List Value) → FieldsMap →
    Except Unit (List (List Value) × FieldsMap)
  | [], rows, fields => .ok (rows, fields)
  | e :: rest, rows, fields => do
    let keyCells : List Value := if includeKey then [.vKeyPath e.keyPath] else []
    let (cells, fields') ← entityCells skipKeyCols cols allNames e [] fields
    parseRowsGo includeKey skipKeyCols cols allNames rest
      (rows ++ [keyCells ++ cells]) fields'

/-- `ParseEntity.parse`.  In the sorted branch the column list never
contains a key alias (property names `__key__`/`key` would be matched
case-sensitively by the dict lookups anyway), so `skipKeyCols` only
matters in the selected branch, exactly as in the source. -/
def parse (data : List EntityResult) (selectedColumns : Option (List String)) :
    Except Unit (List (List Value) × FieldsMap) :=
  let allNames := unionNames data
  let (sortedPropNames, includeKey) :=
    match selectedColumns with
    | none => (sortStr allNames, true)
    | some sel =>
      sel.foldl
        (fun (acc : List String × Bool) col =>
          if isKeyAlias col then (acc.1, true)
          else if allNames.contains col then (acc.1 ++ [col], acc.2)
          else acc)
        ([], false)
  let fields0 : FieldsMap := if includeKey then [("key", none)] else []
  -- `if selected_columns:` (truthiness: `None` and `[]` both take the
  -- sorted branch)
  let selTruthy :=
    match selectedColumns with
    | some (_ :: _) => true
    | _ => false
  let fields1 :=
    if selTruthy then
      (selectedColumns.getD []).foldl
        (fun fs col =>
          if !isKeyAlias col && allNames.contains col then assocSet fs col none else fs)
        fields0
    else
      sortedPropNames.foldl (fun fs n => assocSet fs n none) fields0
  if selTruthy then
    parseRowsGo includeKey true (selectedColumns.getD []) allNames data [] fields1
  else
    parseRowsGo includeKey false sortedPropNames allNames data [] fields1

/-! ### The Aggregation Engine (`Cursor._compute_aggregations`) -/

/-- `isinstance(v, (int, float))` : Python `bool` is a subclass of `int`,
so boolean cells count as numeric here. -/
def pyIsNumeric : Value → Bool
  | .vInt _ => true
  | .vFloat _ => true
  | .vBool _ => true
  | _ => false

def isFloatV : Value → Bool
  | .vFloat _ => true
  | _ => false

/-- Python `+` over two numbers: `int` (bools included) unless either side
is a `float`; float addition is exact fraction addition. -/
def addNumV (a b : Value) : Value :=
  match numView a, numView b with
  | some x, some y =>
    if isFloatV a || isFloatV b then
      .vFloat ⟨x.num * y.den + y.num * x.den, x.den * y.den⟩
    else .vInt (x.num + y.num)
  | _, _ => .vNull

/-- Python `sum(values)` over numbers: left fold of `+` starting from the
`int` zero. -/
def pySum (vs : List Value) : Value :=
  vs.foldl addNumV (.vInt 0)

/-- One aggregate of `_compute_aggregations`.  `error` models an uncaught
exception (`int(col)` on a malformed count bound, `row[col_idx]` out of
range). -/
def computeOneAgg (rows : List (List Value)) (fieldNames : List String)
    (funcName col : String) : Except Unit Value :=
  if funcName = "COUNT" then .ok (.vInt rows.length)
  else if funcName = "COUNT_UP_TO" then
    match pyInt col.data with
    | some limit => .ok (.vInt (min (rows.length : Int) limit))
    | none => .error ()
  else if funcName = "SUM" || funcName = "AVG" then
    if fieldNames.contains col then
      let colIdx := fieldNames.findIdx (fun n => n = col)
      do
        let cells ← rows.mapM (fun row =>
          match row.get? colIdx with
          | some v => Except.ok v
          | none => Except.error ())
        let values := cells.filter (fun v => !isNullV v)
        let numeric := values.filter pyIsNumeric
        if funcName = "SUM" then
          .ok (if numeric.isEmpty then .vInt 0 else pySum numeric)
        else
          .ok (if numeric.isEmpty then .vInt 0
            else
              -- `sum / len` : Python true division always yields a float
              let s := (numView (pySum numeric)).getD ⟨0, 1⟩
              .vFloat ⟨s.num, s.den * (numeric.length : Int)⟩)
    else .ok (.vInt 0)
  else .ok .vNull

/-- `Cursor._compute_aggregations` : one output row, one field per alias. -/
def computeAggregations (rows : List (List Value)) (fields : FieldsMap)
    (aggs : List (String × String × String)) :
    Except Unit (List (List Value) × FieldsMap) := do
  let fieldNames := fields.map (·.1)
  let (vals, outFields) ← aggs.foldlM
    (fun (acc : List Value × FieldsMap) agg => do
      let (funcName, col, aliasName) := agg
      let v ← computeOneAgg rows fieldNames funcName col
      pure (acc.1 ++ [v], assocSet acc.2 aliasName none))
    (([], []) : List Value × FieldsMap)
  .ok ([vals], outFields)

/-! ### The DML INSERT path (`Cursor._execute_insert`) -/

/-- An entity as created by the INSERT path. -/
structure InsEntity where
  kind : String
  keyId : Option Int
  keyName : Option String
  props : List (String × Value)
deriving Repr

/-- Modelled store: `client.put` on an incomplete key makes the service
assign a fresh id; modelled as a counter (the real service returns an
arbitrary fresh id — only "assigned by the store, not taken from the
statement" matters). -/
structure InsStore where
  nextId : Int
deriving Repr

/-- The per-row loop of `_execute_insert`: the key is always created with
`self._datastore_client.key(kind)` — no id/name argument — so every entity
gets a store-assigned id; bound columns (the primary key included) become
ordinary properties. -/
def executeInsertGo (kind : String) (cols : List String) :
    List (List Value) → InsStore → Option Int → List InsEntity →
    List InsEntity × InsStore × Option Int
  | [], st, lr, acc => (acc, st, lr)
  | rowValues :: rest, st, lr, acc =>
    let props := (cols.zip rowValues).foldl (fun m p => ctxInsert m p.1 p.2) []
    let assigned := st.nextId
    let ent : InsEntity := ⟨kind, some assigned, none, props⟩
    -- `if entity.key.id is not None: self.lastrowid = entity.key.id`
    let lr' := match ent.keyId with
      | some i => some i
      | none => lr
    executeInsertGo kind cols rest ⟨st.nextId + 1⟩ lr' (acc ++ [ent])

/-- `Cursor._execute_insert` after statement parsing: kind, column list
and value rows in, created entities / lastrowid / rowcount out. -/
def executeInsert (kind : String) (cols : List String)
    (valuesList : List (List Value)) (st : InsStore) (lastrowid0 : Option Int) :
    List InsEntity × InsStore × Option Int × Nat :=
  let (es, st', lr) := executeInsertGo kind cols valuesList st lastrowid0 []
  (es, st', lr, es.length)

/-! ### Cursor fetch operations -/

/-- The cursor state relevant to the fetch operations: the closed flag and
the remaining row iterator (`_query_rows`). -/
structure CursorState where
  closed : Bool
  queryRows : List (List Value)
deriving Repr

/-- `Cursor.fetchone` : `Error` when closed; `None` when the iterator is
exhausted. -/
def fetchone (c : CursorState) : Except Unit (Option (List Value) × CursorState) :=
  if c.closed then .error ()
  else
    match c.queryRows with
    | [] => .ok (none, c)
    | r :: rs => .ok (some r, { c with queryRows := rs })

/-- The `for _ in range(size): ... except StopIteration: break` loop. -/
def fetchmanyLoop : Nat → List α → List α × List α
  | 0, rs => ([], rs)
  | _ + 1, [] => ([], [])
  | n + 1, r :: rs =>
    let (xs, rest) := fetchmanyLoop n rs
    (r :: xs, rest)

/-- `Cursor.fetchmany` (the `size` defaulting from `arraysize or 1` is
resolved by the caller). -/
def fetchmany (c : CursorState) (size : Nat) :
    Except Unit (List (List Value) × CursorState) :=
  if c.closed then .error ()
  else
    let (xs, rest) := fetchmanyLoop size c.queryRows
    .ok (xs, { c with queryRows := rest })

/-- `Cursor.fetchall` : `list(self._query_rows)` drains the iterator. -/
def fetchall (c : CursorState) : Except Unit (List (List Value) × CursorState) :=
  if c.closed then .error ()
  else .ok (c.queryRows, { c with queryRows := [] })

/-! ### Specification-side definitions used for comparison -/

/-- Modelled from the spec: "SUM/AVG over a numeric column, treating
non-numeric/absent values as excluded (not zero)" — numeric meaning the
data model's Integer and Double types (§3: Bool is a distinct type). -/
def specIsIntOrDouble : Value → Bool
  | .vInt _ => true
  | .vFloat _ => true
  | _ => false

/-- Modelled from the spec: the SUM an exclusion of all non-Integer,
non-Double, and absent values would produce over one column. -/
def specSumIntDouble (rows : List (List Value)) (colIdx : Nat) : Value :=
  pySum ((rows.filterMap (fun r => r.get? colIdx)).filter specIsIntOrDouble)

/-- The numeric cells of one column, re-expressed as a map-then-filter
(the code's two list comprehensions): the cell of every row, keeping those
that are Python-numeric (`int`/`float`/`bool`; `None` is not). -/
def aggNumericCells (rows : List (List Value)) (idx : Nat) : List Value :=
  (rows.map (fun r => r.getD idx .vNull)).filter pyIsNumeric

/-- The SUM the aggregation loop produces over one column. -/
def aggSumSpec (rows : List (List Value)) (idx : Nat) : Value :=
  let ns := aggNumericCells rows idx
  if ns.isEmpty then .vInt 0 else pySum ns

/-- The AVG the aggregation loop produces over one column. -/
def aggAvgSpec (rows : List (List Value)) (idx : Nat) : Value :=
  let ns := aggNumericCells rows idx
  if ns.isEmpty then .vInt 0
  else
    let s := (numView (pySum ns)).getD ⟨0, 1⟩
    .vFloat ⟨s.num, s.den * (ns.length : Int)⟩

/-- The word-`OR` occurrence the spec's fallback trigger describes, as a
predicate over match positions. -/
def SpecHasWordOR (s : List Char) : Prop :=
  ∃ i, wordMatchAt "OR".data (pyUpper s) i = true

/-- A `BLOB(`-literal occurrence, as a predicate over match positions. -/
def SpecHasBlobLit (s : List Char) : Prop :=
  ∃ i, blobMatchAt (pyUpper s) i = true

/-- The cell one requested column contributes for one entity: the parsed
property value when present, `Null` when the entity lacks the property
(never an error for a missing property). -/
def colCell (allNames : List String) (e : EntityResult) (col : String) :
    Except Unit Value :=
  match lookupProp e.props col with
  | some pv => (parseProperties pv).map (·.1)
  | none => pure Value.vNull

/-- The per-entity row the Materializer produces for a selected column
list: the key cell when a key alias was requested, then one cell per
requested, non-key column present somewhere in the batch. -/
def rowOfSelected (includeKey : Bool) (sel allNames : List String)
    (e : EntityResult) : Except Unit (List Value) := do
  let cells ← (sel.filter (fun c => !isKeyAlias c && allNames.contains c)).mapM
    (colCell allNames e)
  pure ((if includeKey then [Value.vKeyPath e.keyPath] else []) ++ cells)

/-- First-occurrence deduplication relative to already-seen names (how a
Python dict accumulates keys). -/
def addNew (seen : List String) : List String → List String
  | [] => []
  | x :: xs =>
    if seen.any (fun s => s = x) then addNew seen xs
    else x :: addNew (seen ++ [x]) xs

/-- The entity list, ids and statement-handle state `_execute_insert`
actually produces: every entity carries a store-assigned id starting at
the store's next fresh id. -/
def insertSpecEnts (kind : String) (cols : List String) (b : Int) :
    List (List Value) → List InsEntity
  | [] => []
  | rv :: rest =>
    ⟨kind, some b, none, (cols.zip rv).foldl (fun m p => ctxInsert m p.1 p.2) []⟩ ::
      insertSpecEnts kind cols (b + 1) rest

/-- A two-entity sample batch: properties `b`,`a` on the first entity, only
`a` on the second, so one row has a per-entity missing property. -/
def sampleBatch : List EntityResult :=
  [⟨[("b", WireValue.integerValue 2), ("a", WireValue.integerValue 1)],
    [⟨"t", some 7, none⟩]⟩,
   ⟨[("a", WireValue.integerValue 3)], [⟨"t", some 8, none⟩]⟩]

/-! ### Helper lemmas -/

theorem filterLoopAcc_eq (p : α → Bool) :
    ∀ (l : List α) (acc : List α), filterLoopAcc p acc l = acc ++ l.filter p := by
  intro l
  induction l with
  | nil => intro acc; simp [filterLoopAcc]
  | cons r rs ih =>
    intro acc
    by_cases h : p r
    · simp [filterLoopAcc, h, ih, List.filter_cons, List.append_assoc]
    · simp [filterLoopAcc, h, ih, List.filter_cons]

theorem hasPrefixCI_nil_false (p : Char) (ps : List Char) :
    hasPrefixCI (p :: ps) [] = false := rfl

theorem wordMatchAt_lt_length {w : List Char} (hw : w ≠ []) {s : List Char} {i : Nat}
    (h : wordMatchAt w s i = true) : i < s.length := by
  by_contra hge
  push_neg at hge
  have hdrop : s.drop i = [] := List.drop_eq_nil_of_le hge
  unfold wordMatchAt at h
  rw [hdrop] at h
  cases w with
  | nil => exact hw rfl
  | cons p ps => simp [hasPrefixCI_nil_false] at h

theorem blobMatchAt_lt_length {s : List Char} {i : Nat}
    (h : blobMatchAt s i = true) : i < s.length := by
  by_contra hge
  push_neg at hge
  have hdrop : s.drop i = [] := List.drop_eq_nil_of_le hge
  unfold blobMatchAt at h
  rw [hdrop] at h
  simp [hasPrefixCh] at h

theorem takeWhile_all_append (p : Char → Bool) (xs : List Char) (y : Char)
    (ys : List Char) (hxs : ∀ x ∈ xs, p x = true) (hy : p y = false) :
    (xs ++ y :: ys).takeWhile p = xs := by
  induction xs with
  | nil => simp [List.takeWhile_cons, hy]
  | cons a as ih =>
    have ha : p a = true := hxs a (by simp)
    simp only [List.cons_append, List.takeWhile_cons, ha, if_true]
    rw [ih (fun x hx => hxs x (by simp [hx]))]

theorem dropWhile_all_append (p : Char → Bool) (xs : List Char) (y : Char)
    (ys : List Char) (hxs : ∀ x ∈ xs, p x = true) (hy : p y = false) :
    (xs ++ y :: ys).dropWhile p = y :: ys := by
  induction xs with
  | nil => simp [List.dropWhile_cons, hy]
  | cons a as ih =>
    have ha : p a = true := hxs a (by simp)
    simp only [List.cons_append, List.dropWhile_cons, ha, if_true]
    exact ih (fun x hx => hxs x (by simp [hx]))

theorem insertSpecEnts_length (kind : String) (cols : List String) :
    ∀ (b : Int) (vals : List (List Value)),
      (insertSpecEnts kind cols b vals).length = vals.length := by
  intro b vals
  induction vals generalizing b with
  | nil => rfl
  | cons rv rest ih => simp [insertSpecEnts, ih]

theorem executeInsertGo_spec (kind : String) (cols : List String) :
    ∀ (vals : List (List Value)) (st : InsStore) (lr : Option Int)
      (acc : List InsEntity),
      executeInsertGo kind cols vals st lr acc =
        (acc ++ insertSpecEnts kind cols st.nextId vals,
         ⟨st.nextId + vals.length⟩,
         if vals.isEmpty then lr else some (st.nextId + vals.length - 1)) := by
  intro vals
  induction vals with
  | nil =>
    intro st lr acc
    simp [executeInsertGo, insertSpecEnts]
  | cons rv rest ih =>
    intro st lr acc
    show executeInsertGo kind cols rest ⟨st.nextId + 1⟩ (some st.nextId) (acc ++ [_]) = _
    rw [ih]
    simp only [insertSpecEnts, List.append_assoc, List.singleton_append,
      List.length_cons, List.isEmpty_cons, Prod.mk.injEq, InsStore.mk.injEq,
      Bool.false_eq_true, if_false]
    refine ⟨trivial, ?_, ?_⟩
    · push_cast
      ring
    · cases rest with
      | nil => simp
      | cons a b =>
        simp only [List.isEmpty_cons, Bool.false_eq_true, if_false, List.length_cons]
        congr 1
        push_cast
        ring

theorem fetchmanyLoop_nil (n : Nat) : fetchmanyLoop n ([] : List α) = ([], []) := by
  cases n <;> rfl

/-! ### Claim theorems -/

/-- C1: the specification asserts that Integer and Double never compare
equal across the type boundary under the comparison used by filters, and
the repository's own test (`test_integer_vs_double_inequality`: "integer 2
!= double 2.0 in Datastore") documents that as the store's semantics.  The
client-side fallback evaluator, however, compares with Python `==`, under
which `2 == 2.0` — so an entity with integer `hours = 2` *is* matched by
the predicate `hours = 2.0` whenever that predicate is evaluated
client-side: the code deviates from the invariant it is meant to
reproduce. -/
theorem C1_integer_double_cross_equal :
    evalSimpleCondition [("hours", Value.vInt 2)] "hours = 2.0".data =
      .ok true ∧
    applyClientSideFilter [[Value.vInt 2]] ["hours"]
        "SELECT * FROM tasks WHERE hours = 2.0".data = [[Value.vInt 2]] ∧
    pyEq (Value.vInt 2) (Value.vFloat ⟨2, 1⟩) = true := by
  refine ⟨rfl, rfl, rfl⟩

/-- C2 counterexample: an atom that matches none of the recognized
comparison shapes does *not* evaluate to false — `_eval_simple_condition`
falls through to `return True` (pinned by the repository's unit test
`test_eval_simple_condition_default`), so the row is included, not
excluded. -/
theorem C2_unparsed_atom_defaults_true :
    evalSimpleCondition [("x", Value.vInt 1)] "some_unrecognizable_thing".data =
      .ok true ∧
    evaluateWhere [Value.vInt 1] ["x"] "some_unrecognizable_thing".data = true := by
  refine ⟨rfl, rfl⟩

/-- C2 (amended): during client-side fallback filtering, any exception
raised while evaluating the predicate against a row (a literal-parse
`ValueError`, a comparison `TypeError`) is caught in `_evaluate_where` and
the row evaluates to false — the error is never propagated; but an atom
matching none of the recognized comparison shapes evaluates to *true*
(fail-open), not false. -/
theorem C2_fail_closed_on_exception (row : List Value) (fieldNames : List String)
    (wc : List Char)
    (h : evalCondition (wc.length + 1) (buildCtx fieldNames row) wc = .error ()) :
    evaluateWhere row fieldNames wc = false := by
  unfold evaluateWhere
  rw [h]

theorem C2_fail_closed_on_exception_witness :
    evalCondition ("d = DATETIME('garbage')".data.length + 1) (buildCtx [] [])
        "d = DATETIME('garbage')".data = .error () ∧
    evaluateWhere [] [] "d = DATETIME('garbage')".data = false :=
  ⟨rfl, C2_fail_closed_on_exception [] [] _ rfl⟩

/-- C3 counterexample: fractional seconds longer than 6 digits are *not*
truncated in entity materialization — `ParseEntity.parse_properties`
passes the fraction unmodified to `fromisoformat` (which, per the
assumption the source itself documents, accepts only 0-, 3- or 6-digit
fractions), so the 7-digit wire timestamp raises instead of decoding to
microsecond 4; the truncation exists only in `Cursor._parse_literal`. -/
theorem C3_materializer_no_truncation :
    parseProperties (.timestampValue "2025-01-01T01:02:03.0000045Z") = .error () ∧
    parseLiteral "DATETIME('2025-01-01T01:02:03.0000045Z')".data =
      .ok (.vTime ⟨2025, 1, 1, 1, 2, 3, 4, some 0⟩) := by
  refine ⟨rfl, rfl⟩

/-- C3 (amended): a trailing `Z` is accepted and normalized to `+00:00` in
both decoders, and the literal `'2025-01-01T01:02:03.000004Z'` decodes to
microsecond exactly 4 in both entity materialization and predicate
literals; the truncate-don't-round rule for over-long fractions holds in
predicate literals only: whenever the fraction pattern matches with at
least 6 digits, `_parse_literal` hands `fromisoformat` the first 6 digits
unchanged. -/
theorem C3_timestamp_decoding :
    parseLiteral "DATETIME('2025-01-01T01:02:03.000004Z')".data =
      .ok (.vTime ⟨2025, 1, 1, 1, 2, 3, 4, some 0⟩) ∧
    parseProperties (.timestampValue "2025-01-01T01:02:03.000004Z") =
      .ok (.vTime ⟨2025, 1, 1, 1, 2, 3, 4, some 0⟩, some .timestampT) ∧
    parseLiteral "DATETIME('2025-01-01T01:02:03.0000045Z')".data =
      .ok (.vTime ⟨2025, 1, 1, 1, 2, 3, 4, some 0⟩) ∧
    (∀ s head frac tail, matchStamp s = some (head, frac, tail) →
      6 ≤ frac.length →
      normalizeFrac s = head ++ '.' :: (frac.take 6 ++ tail)) := by
  refine ⟨rfl, rfl, rfl, ?_⟩
  intro s head frac tail h h6
  unfold normalizeFrac
  rw [h]
  have hlen : (frac.take 6).length = 6 := by
    simp [List.length_take]
    omega
  simp [hlen]

theorem C3_timestamp_decoding_witness :
    matchStamp "2025-01-01T01:02:03.0000045+00:00".data =
      some ("2025-01-01T01:02:03".data, "0000045".data, "+00:00".data) ∧
    normalizeFrac "2025-01-01T01:02:03.0000045+00:00".data =
      "2025-01-01T01:02:03".data ++ '.' ::
        ("0000045".data.take 6 ++ "+00:00".data) :=
  ⟨rfl, C3_timestamp_decoding.2.2.2 _ _ _ _ rfl (by decide)⟩

/-- C5 counterexample: an INSERT binding the primary-key column does *not*
use the bound value as the entity's explicit id — `_execute_insert` always
creates the key with `client.key(kind)` (auto-assigned), and the bound
`id = 7` is stored as an ordinary property; `lastrowid` reports the
store-assigned id, not 7. -/
theorem C5_insert_ignores_bound_pk :
    executeInsert "users" ["id", "name"] [[Value.vInt 7, Value.vStr "x"]]
        ⟨1001⟩ none =
      ([⟨"users", some 1001, none,
          [("id", Value.vInt 7), ("name", Value.vStr "x")]⟩],
        ⟨1002⟩, some 1001, 1) ∧
    (some (1001 : Int) ≠ some (7 : Int)) := by
  refine ⟨rfl, by decide⟩

/-- C5 (amended): every INSERT creates its entities with store-assigned
ids (consecutive fresh ids in this store model), regardless of whether a
primary-key column is bound — bound columns, the primary key included,
become ordinary properties; after execution the statement handle's
last-row-id is the id assigned to the last inserted entity (unchanged when
no row was inserted), and the rowcount is the number of rows. -/
theorem C5_store_assigned_ids (kind : String) (cols : List String)
    (vals : List (List Value)) (st : InsStore) (lr0 : Option Int) :
    executeInsert kind cols vals st lr0 =
      (insertSpecEnts kind cols st.nextId vals,
       ⟨st.nextId + vals.length⟩,
       (if vals.isEmpty then lr0 else some (st.nextId + vals.length - 1)),
       vals.length) := by
  unfold executeInsert
  rw [executeInsertGo_spec]
  simp [insertSpecEnts_length]

/-- C9 counterexample: the full rewrite is not idempotent — the trailing
comma-cleanup rule `,\s*,` → `,` removes only alternate commas in one
pass, so a second application of the conversion changes the text again. -/
theorem C9_not_idempotent :
    convertSqlToGql "SELECT a ,, ,, b FROM t".data =
      "SELECT a , , b FROM t".data ∧
    convertSqlToGql "SELECT a , , b FROM t".data =
      "SELECT a , b FROM t".data ∧
    convertSqlToGql (convertSqlToGql "SELECT a ,, ,, b FROM t".data) ≠
      convertSqlToGql "SELECT a ,, ,, b FROM t".data := by
  refine ⟨rfl, rfl, by decide⟩

/-- C9 (amended): the conversion is not idempotent on all statements (the
comma-cleanup rule needs several passes on doubled commas), but the
IN-list rewrite itself never double-wraps: converting a statement whose IN
list it has already wrapped in `ARRAY(...)` leaves the text fixed. -/
theorem C9_in_array_single_wrap :
    convertSqlToGql "SELECT * FROM tasks WHERE name IN ('A', 'B')".data =
      "SELECT * FROM tasks WHERE name IN ARRAY('A', 'B')".data ∧
    convertSqlToGql
        (convertSqlToGql "SELECT * FROM tasks WHERE name IN ('A', 'B')".data) =
      convertSqlToGql "SELECT * FROM tasks WHERE name IN ('A', 'B')".data := by
  refine ⟨rfl, rfl⟩

/-- C10: on a closed cursor all three fetch operations raise `Error`; on
an open cursor whose row iterator is exhausted, `fetchone` returns `None`,
and `fetchmany`/`fetchall` return empty lists. -/
theorem C10_fetch_closed_and_exhausted (c : CursorState) (size : Nat) :
    (c.closed = true →
      fetchone c = .error () ∧ fetchmany c size = .error () ∧
        fetchall c = .error ()) ∧
    (c.closed = false → c.queryRows = [] →
      fetchone c = .ok (none, c) ∧ fetchmany c size = .ok ([], c) ∧
        fetchall c = .ok ([], c)) := by
  obtain ⟨cl, rows⟩ := c
  constructor
  · intro h
    simp only at h
    subst h
    exact ⟨rfl, rfl, rfl⟩
  · intro h hr
    simp only at h hr
    subst h
    subst hr
    refine ⟨rfl, ?_, rfl⟩
    simp [fetchmany, fetchmanyLoop_nil]

theorem C10_fetch_witness :
    fetchone ⟨true, []⟩ = .error () ∧
    fetchone ⟨false, []⟩ = .ok (none, ⟨false, []⟩) :=
  ⟨((C10_fetch_closed_and_exhausted ⟨true, []⟩ 1).1 rfl).1,
   ((C10_fetch_closed_and_exhausted ⟨false, []⟩ 1).2 rfl rfl).1⟩

/-- C4: the needs-fallback flag is set exactly when the rewritten text
still contains the word `OR` or a `BLOB(` literal; the fallback base query
is the statement with its WHERE clause (up to ORDER BY/LIMIT/OFFSET)
removed; and the fallback filter equals evaluating the statement's WHERE
predicate as a boolean function row by row over the unfiltered row set
(rows unchanged when the statement has no WHERE). -/
theorem C4_fallback_semantics :
    (∀ s : List Char,
      needsClientSideFilter s = true ↔ (SpecHasWordOR s ∨ SpecHasBlobLit s)) ∧
    (∀ (s : List Char) (w : Nat),
      findSub (pyUpper s) " WHERE ".data = some w → 0 < w →
      extractBaseQueryForFilter s =
        strip (s.take w ++ s.drop (whereEndIdx (pyUpper s) w s.length))) ∧
    (∀ (rows : List (List Value)) (fieldNames : List String) (stmt wc : List Char),
      whereClauseOf stmt = some wc →
      applyClientSideFilter rows fieldNames stmt =
        rows.filter (fun r => evaluateWhere r fieldNames wc)) ∧
    (∀ (rows : List (List Value)) (fieldNames : List String) (stmt : List Char),
      whereClauseOf stmt = none →
      applyClientSideFilter rows fieldNames stmt = rows) := by
  refine ⟨?_, ?_, ?_, ?_⟩
  · intro s
    unfold needsClientSideFilter SpecHasWordOR SpecHasBlobLit
    rw [Bool.or_eq_true, List.any_eq_true, List.any_eq_true]
    constructor
    · rintro (⟨i, _, h⟩ | ⟨i, _, h⟩)
      · exact Or.inl ⟨i, h⟩
      · exact Or.inr ⟨i, h⟩
    · rintro (⟨i, h⟩ | ⟨i, h⟩)
      · refine Or.inl ⟨i, List.mem_range.mpr ?_, h⟩
        have := wordMatchAt_lt_length (by decide) h
        omega
      · refine Or.inr ⟨i, List.mem_range.mpr ?_, h⟩
        have := blobMatchAt_lt_length h
        omega
  · intro s w h hw
    unfold extractBaseQueryForFilter
    simp only [h]
    rw [if_pos hw]
  · intro rows fieldNames stmt wc h
    unfold applyClientSideFilter
    rw [h]
    simpa using filterLoopAcc_eq (fun r => evaluateWhere r fieldNames wc) rows []
  · intro rows fieldNames stmt h
    unfold applyClientSideFilter
    rw [h]

theorem C4_fallback_semantics_witness :
    needsClientSideFilter "SELECT * FROM t WHERE a = 1 OR b = 2".data = true ∧
    findSub (pyUpper "SELECT * FROM t WHERE x = 1 ORDER BY y LIMIT 2".data)
        " WHERE ".data = some 15 ∧
    extractBaseQueryForFilter "SELECT * FROM t WHERE x = 1 ORDER BY y LIMIT 2".data =
      "SELECT * FROM t ORDER BY y LIMIT 2".data ∧
    whereClauseOf "SELECT * FROM t WHERE age > 15".data = some "age > 15".data ∧
    applyClientSideFilter [[Value.vInt 16], [Value.vInt 14], [Value.vInt 28]]
        ["age"] "SELECT * FROM t WHERE age > 15".data =
      [[Value.vInt 16], [Value.vInt 28]] := by
  refine ⟨?_, rfl, ?_, rfl, ?_⟩
  · exact (C4_fallback_semantics.1 _).mpr (Or.inl ⟨28, by decide⟩)
  · rw [C4_fallback_semantics.2.1
      "SELECT * FROM t WHERE x = 1 ORDER BY y LIMIT 2".data 15 (by decide) (by decide)]
    rfl
  · rw [C4_fallback_semantics.2.2.1 [[Value.vInt 16], [Value.vInt 14], [Value.vInt 28]]
      ["age"] "SELECT * FROM t WHERE age > 15".data "age > 15".data (by decide)]
    rfl

/-- C6 counterexample: a statement whose projection list is neither `*`
nor the key pseudo-column alone (`DISTINCT name`) together with a WHERE
clause is *not* degraded to `SELECT *` — the degrade step exempts
DISTINCT-prefixed projections, so translation leaves it unchanged. -/
theorem C6_distinct_not_degraded :
    convertSqlToGql "SELECT DISTINCT name FROM tasks WHERE done = true".data =
      "SELECT DISTINCT name FROM tasks WHERE done = true".data ∧
    hasPrefixCh "SELECT * ".data
        (convertSqlToGql "SELECT DISTINCT name FROM tasks WHERE done = true".data) =
      false := by
  refine ⟨rfl, rfl⟩

/-- C6 (amended): when the translation finds a WHERE clause after FROM and
the projection list is neither `*`, nor `__KEY__` alone, nor
DISTINCT-prefixed, the statement is degraded to a full-entity `SELECT *`
query over the same tail; column narrowing is left to the Materializer. -/
theorem C6_projection_degrade :
    (∀ (stmt : List Char) (fp wp : Nat),
      findSub (pyUpper stmt) " FROM ".data = some fp →
      findSub (pyUpper stmt) " WHERE ".data = some wp →
      0 < fp → fp < wp →
      degradeSelectCols (stmt.take fp) ≠ "*".data →
      pyUpper (degradeSelectCols (stmt.take fp)) ≠ "__KEY__".data →
      hasPrefixCh "DISTINCT".data (pyUpper (degradeSelectCols (stmt.take fp))) = false →
      degradeProjection stmt = "SELECT * ".data ++ stmt.drop (fp + 1)) ∧
    convertSqlToGql "SELECT name, age FROM tasks WHERE done = true".data =
      "SELECT * FROM tasks WHERE done = true".data := by
  refine ⟨?_, rfl⟩
  intro stmt fp wp hf hw h0 hfw hc hk hd
  unfold degradeProjection
  simp only [hf, hw]
  rw [if_pos (by simp [h0, hfw]), if_pos (by simp [hc, hk, hd])]

theorem C6_projection_degrade_witness :
    degradeProjection "SELECT name, age FROM tasks WHERE done = true".data =
      "SELECT * FROM tasks WHERE done = true".data := by
  have h := C6_projection_degrade.1 "SELECT name, age FROM tasks WHERE done = true".data
    16 27 rfl rfl (by decide) (by decide) (by decide) (by decide) (by decide)
  exact h

theorem exceptOkBind (x : α) (f : α → Except ε β) :
    (Except.ok x : Except ε α) >>= f = f x := rfl

theorem mapM_getCell (idx : Nat) :
    ∀ (rows : List (List Value)), (∀ r ∈ rows, idx < r.length) →
      rows.mapM (fun row =>
        match row.get? idx with
        | some v => Except.ok v
        | none => Except.error ()) =
      (Except.ok (rows.map (fun r => r.getD idx .vNull)) : Except Unit (List Value)) := by
  intro rows
  induction rows with
  | nil => intro _; rfl
  | cons r rs ih =>
    intro hb
    have hr : idx < r.length := hb r (by simp)
    have hsome : r.get? idx = some (r.getD idx .vNull) := by
      rw [List.get?_eq_getElem?, List.getD_eq_getElem?_getD]
      cases hq : r[idx]? with
      | none =>
        rw [List.getElem?_eq_none_iff] at hq
        omega
      | some v => simp [hq]
    rw [List.mapM_cons]
    rw [ih (fun q hq => hb q (by simp [hq]))]
    rw [hsome]
    rfl

theorem filter_nonNull_numeric (l : List Value) :
    (l.filter (fun v => !isNullV v)).filter pyIsNumeric = l.filter pyIsNumeric := by
  rw [List.filter_filter]
  apply List.filter_congr
  intro v _
  cases v <;> rfl

/-- C7 counterexample: a Bool cell participates in SUM — Python's
`isinstance(v, (int, float))` is true for `bool`, so `SUM` over a column
holding Datastore Bool `true` computes 1, whereas excluding every
non-Integer, non-Double value (the spec's data model makes Bool a distinct
non-numeric type) would compute 0. -/
theorem C7_bool_counted_as_numeric :
    computeAggregations [[Value.vBool true]] [("flag", none)]
        [("SUM", "flag", "SUM")] =
      .ok ([[Value.vInt 1]], [("SUM", none)]) ∧
    specSumIntDouble [[Value.vBool true]] 0 = Value.vInt 0 ∧
    Value.vInt 1 ≠ Value.vInt 0 := by
  refine ⟨rfl, rfl, by simp⟩

/-- C7 (amended): `COUNT` computes exactly the row count and
`COUNT_UP_TO(n)` exactly `min(row_count, n)`; `SUM`/`AVG` over a column
exclude absent (`None`) cells and cells that are not Python-numeric, but
Python-numeric includes `bool` (a subclass of `int`), so Bool cells
participate as 1/0 rather than being excluded. -/
theorem C7_aggregation_semantics :
    (∀ (rows : List (List Value)) (fieldNames : List String) (col : String),
      computeOneAgg rows fieldNames "COUNT" col = .ok (.vInt rows.length)) ∧
    (∀ (rows : List (List Value)) (fieldNames : List String) (colStr : String)
      (n : Int), pyInt colStr.data = some n →
      computeOneAgg rows fieldNames "COUNT_UP_TO" colStr =
        .ok (.vInt (min (rows.length : Int) n))) ∧
    (∀ (rows : List (List Value)) (fieldNames : List String) (col : String),
      fieldNames.contains col = true →
      (∀ r ∈ rows, fieldNames.findIdx (fun x => x = col) < r.length) →
      computeOneAgg rows fieldNames "SUM" col =
        .ok (aggSumSpec rows (fieldNames.findIdx (fun x => x = col))) ∧
      computeOneAgg rows fieldNames "AVG" col =
        .ok (aggAvgSpec rows (fieldNames.findIdx (fun x => x = col)))) := by
  refine ⟨fun rows fieldNames col => rfl, ?_, ?_⟩
  · intro rows fieldNames colStr n h
    have h0 : computeOneAgg rows fieldNames "COUNT_UP_TO" colStr =
        (match pyInt colStr.data with
        | some limit => Except.ok (Value.vInt (min (rows.length : Int) limit))
        | none => Except.error ()) := rfl
    rw [h0, h]
  · intro rows fieldNames col hc hb
    have hmap := mapM_getCell (fieldNames.findIdx (fun x => x = col)) rows hb
    constructor
    · have h0 : computeOneAgg rows fieldNames "SUM" col =
          (if fieldNames.contains col = true then
            (do
              let cells ← rows.mapM (fun row =>
                match row.get? (fieldNames.findIdx (fun x => x = col)) with
                | some v => Except.ok v
                | none => Except.error ())
              let values := cells.filter (fun v => !isNullV v)
              let numeric := values.filter pyIsNumeric
              Except.ok (if numeric.isEmpty then Value.vInt 0 else pySum numeric))
          else .ok (.vInt 0)) := rfl
      rw [h0, if_pos hc]
      rw [hmap]
      rw [exceptOkBind]
      simp only [filter_nonNull_numeric]
      rfl
    · have h0 : computeOneAgg rows fieldNames "AVG" col =
          (if fieldNames.contains col = true then
            (do
              let cells ← rows.mapM (fun row =>
                match row.get? (fieldNames.findIdx (fun x => x = col)) with
                | some v => Except.ok v
                | none => Except.error ())
              let values := cells.filter (fun v => !isNullV v)
              let numeric := values.filter pyIsNumeric
              Except.ok (if numeric.isEmpty then Value.vInt 0
                else
                  let s := (numView (pySum numeric)).getD ⟨0, 1⟩
                  Value.vFloat ⟨s.num, s.den * (numeric.length : Int)⟩))
          else .ok (.vInt 0)) := rfl
      rw [h0, if_pos hc]
      rw [hmap]
      rw [exceptOkBind]
      simp only [filter_nonNull_numeric]
      rfl

theorem C7_aggregation_semantics_witness :
    pyInt "2".data = some 2 ∧
    computeOneAgg [[Value.vInt 1], [Value.vInt 2], [Value.vInt 3]] ["hours"]
        "COUNT_UP_TO" "2" = .ok (.vInt (min (3 : Int) 2)) ∧
    ["hours"].contains "hours" = true ∧
    computeOneAgg [[Value.vInt 1], [Value.vInt 2], [Value.vInt 3]] ["hours"]
        "SUM" "hours" =
      .ok (aggSumSpec [[Value.vInt 1], [Value.vInt 2], [Value.vInt 3]]
        (["hours"].findIdx (fun x => x = "hours"))) := by
  refine ⟨rfl, ?_, rfl, ?_⟩
  · exact C7_aggregation_semantics.2.1 _ _ "2" 2 rfl
  · exact (C7_aggregation_semantics.2.2
      [[Value.vInt 1], [Value.vInt 2], [Value.vInt 3]] ["hours"] "hours" rfl
      (by intro r hr; fin_cases hr <;> decide)).1

/-! ### Lemmas about `ParseEntity.parse` -/

theorem exceptErrBind {ε α β : Type} (u : ε) (f : α → Except ε β) :
    ((Except.error u : Except ε α) >>= f) = Except.error u := rfl

theorem typeUpdate_keys (fields : FieldsMap) (col : String) (t : Option PropType) :
    (typeUpdate fields col t).map (·.1) = fields.map (·.1) := by
  unfold typeUpdate
  rw [List.map_map]
  apply List.map_congr_left
  intro p _
  by_cases h : (decide (p.1 = col) && decide (p.2 = none)) = true
  · simp only [Function.comp_apply, if_pos h]
    simp only [Bool.and_eq_true, decide_eq_true_eq] at h
    exact h.1.symm
  · simp only [Function.comp_apply, if_neg h]

theorem entityCells_skip {skip : Bool} {col : String} {rest allNames : List String}
    {e : EntityResult} {cells : List Value} {fields : FieldsMap}
    (h : (skip && isKeyAlias col) = true) :
    entityCells skip (col :: rest) allNames e cells fields =
      entityCells skip rest allNames e cells fields := by
  simp only [entityCells]
  rw [if_pos h]

theorem entityCells_absent {skip : Bool} {col : String} {rest allNames : List String}
    {e : EntityResult} {cells : List Value} {fields : FieldsMap}
    (h1 : (skip && isKeyAlias col) = false) (h2 : allNames.contains col = false) :
    entityCells skip (col :: rest) allNames e cells fields =
      entityCells skip rest allNames e cells fields := by
  simp only [entityCells]
  rw [if_neg (by rw [h1]; exact Bool.false_ne_true),
    if_neg (by rw [h2]; exact Bool.false_ne_true)]

theorem entityCells_null {skip : Bool} {col : String} {rest allNames : List String}
    {e : EntityResult} {cells : List Value} {fields : FieldsMap}
    (h1 : (skip && isKeyAlias col) = false) (h2 : allNames.contains col = true)
    (h3 : lookupProp e.props col = none) :
    entityCells skip (col :: rest) allNames e cells fields =
      entityCells skip rest allNames e (cells ++ [Value.vNull]) fields := by
  simp only [entityCells]
  rw [if_neg (by rw [h1]; exact Bool.false_ne_true), if_pos h2, h3]

theorem entityCells_found_ok {skip : Bool} {col : String} {rest allNames : List String}
    {e : EntityResult} {cells : List Value} {fields : FieldsMap} {pv : WireValue}
    {v : Value} {t : Option PropType}
    (h1 : (skip && isKeyAlias col) = false) (h2 : allNames.contains col = true)
    (h3 : lookupProp e.props col = some pv)
    (h4 : parseProperties pv = .ok (v, t)) :
    entityCells skip (col :: rest) allNames e cells fields =
      entityCells skip rest allNames e (cells ++ [v]) (typeUpdate fields col t) := by
  simp only [entityCells]
  rw [if_neg (by rw [h1]; exact Bool.false_ne_true), if_pos h2, h3]
  show (parseProperties pv >>= fun vt =>
      entityCells skip rest allNames e (cells ++ [vt.1]) (typeUpdate fields col vt.2)) = _
  rw [h4]
  rfl

theorem entityCells_found_err {skip : Bool} {col : String} {rest allNames : List String}
    {e : EntityResult} {cells : List Value} {fields : FieldsMap} {pv : WireValue}
    {u : Unit}
    (h1 : (skip && isKeyAlias col) = false) (h2 : allNames.contains col = true)
    (h3 : lookupProp e.props col = some pv)
    (h4 : parseProperties pv = .error u) :
    entityCells skip (col :: rest) allNames e cells fields = .error u := by
  simp only [entityCells]
  rw [if_neg (by rw [h1]; exact Bool.false_ne_true), if_pos h2, h3]
  show (parseProperties pv >>= fun vt =>
      entityCells skip rest allNames e (cells ++ [vt.1]) (typeUpdate fields col vt.2)) = _
  rw [h4]
  rfl

theorem entityCells_keys (allNames : List String) (e : EntityResult) (skip : Bool) :
    ∀ (cols : List String) (cells : List Value) (fields : FieldsMap)
      (cs : List Value) (fs : FieldsMap),
      entityCells skip cols allNames e cells fields = .ok (cs, fs) →
      fs.map (·.1) = fields.map (·.1) := by
  intro cols
  induction cols with
  | nil =>
    intro cells fields cs fs h
    injection h with h'
    rw [show fs = fields from congrArg Prod.snd h'.symm]
  | cons col rest ih =>
    intro cells fields cs fs h
    cases h1 : (skip && isKeyAlias col) with
    | true =>
      rw [entityCells_skip h1] at h
      exact ih _ _ _ _ h
    | false =>
      cases h2 : allNames.contains col with
      | false =>
        rw [entityCells_absent h1 h2] at h
        exact ih _ _ _ _ h
      | true =>
        cases h3 : lookupProp e.props col with
        | none =>
          rw [entityCells_null h1 h2 h3] at h
          exact ih _ _ _ _ h
        | some pv =>
          cases h4 : parseProperties pv with
          | error u =>
            rw [entityCells_found_err h1 h2 h3 h4] at h
            exact Except.noConfusion h
          | ok vt =>
            obtain ⟨v, t⟩ := vt
            rw [entityCells_found_ok h1 h2 h3 h4] at h
            exact (ih _ _ _ _ h).trans (typeUpdate_keys fields col t)

theorem colCell_found {allNames : List String} {e : EntityResult} {col : String}
    {pv : WireValue} (h3 : lookupProp e.props col = some pv) :
    colCell allNames e col = (parseProperties pv).map (·.1) := by
  unfold colCell
  rw [h3]

theorem colCell_none {allNames : List String} {e : EntityResult} {col : String}
    (h3 : lookupProp e.props col = none) :
    colCell allNames e col = .ok Value.vNull := by
  unfold colCell
  rw [h3]
  rfl

theorem entityCells_cells (allNames : List String) (e : EntityResult) :
    ∀ (cols : List String) (cells : List Value) (fields : FieldsMap),
      (entityCells true cols allNames e cells fields).map (·.1) =
        ((cols.filter (fun c => !isKeyAlias c && allNames.contains c)).mapM
          (colCell allNames e)).map (fun cs => cells ++ cs) := by
  intro cols
  induction cols with
  | nil =>
    intro cells fields
    rw [List.filter_nil, List.mapM_nil]
    show Except.ok cells = Except.ok (cells ++ [])
    rw [List.append_nil]
  | cons col rest ih =>
    intro cells fields
    simp only [List.filter_cons]
    cases ha : isKeyAlias col with
    | true =>
      have hni : ¬((!true && allNames.contains col) = true) := by simp
      rw [if_neg hni, entityCells_skip (by rw [Bool.true_and, ha])]
      exact ih cells fields
    | false =>
      cases h2 : allNames.contains col with
      | false =>
        have hni : ¬((!false && false) = true) := by simp
        rw [if_neg hni, entityCells_absent (by rw [Bool.true_and, ha]) h2]
        exact ih cells fields
      | true =>
        rw [if_pos (show (!false && true) = true from rfl), List.mapM_cons]
        cases h3 : lookupProp e.props col with
        | none =>
          rw [entityCells_null (by rw [Bool.true_and, ha]) h2 h3,
            ih (cells ++ [Value.vNull]) fields, colCell_none h3]
          cases hrest : (rest.filter (fun c => !isKeyAlias c && allNames.contains c)).mapM
              (colCell allNames e) with
          | error u => rfl
          | ok cs =>
            show Except.ok ((cells ++ [Value.vNull]) ++ cs) =
              Except.ok (cells ++ (Value.vNull :: cs))
            rw [List.append_assoc, List.singleton_append]
        | some pv =>
          cases h4 : parseProperties pv with
          | error u =>
            rw [entityCells_found_err (by rw [Bool.true_and, ha]) h2 h3 h4,
              colCell_found h3, h4]
            rfl
          | ok vt =>
            obtain ⟨v, t⟩ := vt
            rw [entityCells_found_ok (by rw [Bool.true_and, ha]) h2 h3 h4,
              ih (cells ++ [v]) (typeUpdate fields col t), colCell_found h3, h4]
            cases hrest : (rest.filter (fun c => !isKeyAlias c && allNames.contains c)).mapM
                (colCell allNames e) with
            | error u => rfl
            | ok cs =>
              show Except.ok ((cells ++ [v]) ++ cs) = Except.ok (cells ++ (v :: cs))
              rw [List.append_assoc, List.singleton_append]

theorem parseRowsGo_cons_ok {includeKey skip : Bool} {cols allNames : List String}
    {e : EntityResult} {rest : List EntityResult} {rows : List (List Value)}
    {fields : FieldsMap} {cells : List Value} {fields' : FieldsMap}
    (h : entityCells skip cols allNames e [] fields = .ok (cells, fields')) :
    parseRowsGo includeKey skip cols allNames (e :: rest) rows fields =
      parseRowsGo includeKey skip cols allNames rest
        (rows ++ [(if includeKey then [Value.vKeyPath e.keyPath] else []) ++ cells])
        fields' := by
  show (entityCells skip cols allNames e [] fields >>= fun p =>
      parseRowsGo includeKey skip cols allNames rest
        (rows ++ [(if includeKey then [Value.vKeyPath e.keyPath] else []) ++ p.1])
        p.2) = _
  rw [h]
  rfl

theorem parseRowsGo_cons_err {includeKey skip : Bool} {cols allNames : List String}
    {e : EntityResult} {rest : List EntityResult} {rows : List (List Value)}
    {fields : FieldsMap} {u : Unit}
    (h : entityCells skip cols allNames e [] fields = .error u) :
    parseRowsGo includeKey skip cols allNames (e :: rest) rows fields = .error u := by
  show (entityCells skip cols allNames e [] fields >>= fun p =>
      parseRowsGo includeKey skip cols allNames rest
        (rows ++ [(if includeKey then [Value.vKeyPath e.keyPath] else []) ++ p.1])
        p.2) = _
  rw [h]
  rfl

theorem parseRowsGo_keys (includeKey skip : Bool) (cols allNames : List String) :
    ∀ (data : List EntityResult) (rows0 : List (List Value)) (fields : FieldsMap)
      (rows : List (List Value)) (fs : FieldsMap),
      parseRowsGo includeKey skip cols allNames data rows0 fields = .ok (rows, fs) →
      fs.map (·.1) = fields.map (·.1) := by
  intro data
  induction data with
  | nil =>
    intro rows0 fields rows fs h
    injection h with h'
    rw [show fs = fields from congrArg Prod.snd h'.symm]
  | cons e rest ih =>
    intro rows0 fields rows fs h
    cases hec : entityCells skip cols allNames e [] fields with
    | error u =>
      rw [parseRowsGo_cons_err hec] at h
      exact Except.noConfusion h
    | ok p =>
      obtain ⟨cells, fields'⟩ := p
      rw [parseRowsGo_cons_ok hec] at h
      exact (ih _ _ _ _ h).trans
        (entityCells_keys allNames e skip cols [] fields cells fields' hec)

theorem rowOfSelected_eq (includeKey : Bool) (sel allNames : List String)
    (e : EntityResult) :
    rowOfSelected includeKey sel allNames e =
      ((sel.filter (fun c => !isKeyAlias c && allNames.contains c)).mapM
        (colCell allNames e)).map
        (fun cs => (if includeKey then [Value.vKeyPath e.keyPath] else []) ++ cs) := by
  unfold rowOfSelected
  cases hm : (sel.filter (fun c => !isKeyAlias c && allNames.contains c)).mapM
      (colCell allNames e) with
  | error u => rfl
  | ok cs => rfl

theorem parseRowsGo_rows (includeKey : Bool) (sel allNames : List String) :
    ∀ (data : List EntityResult) (rows0 : List (List Value)) (fields : FieldsMap),
      (parseRowsGo includeKey true sel allNames data rows0 fields).map (·.1) =
        (data.mapM (rowOfSelected includeKey sel allNames)).map
          (fun rs => rows0 ++ rs) := by
  intro data
  induction data with
  | nil =>
    intro rows0 fields
    rw [List.mapM_nil]
    show Except.ok rows0 = Except.ok (rows0 ++ [])
    rw [List.append_nil]
  | cons e rest ih =>
    intro rows0 fields
    rw [List.mapM_cons]
    cases hec : entityCells true sel allNames e [] fields with
    | error u =>
      have hm : (sel.filter (fun c => !isKeyAlias c && allNames.contains c)).mapM
          (colCell allNames e) = .error u := by
        have h1 := entityCells_cells allNames e sel [] fields
        rw [hec] at h1
        cases hm2 : (sel.filter (fun c => !isKeyAlias c && allNames.contains c)).mapM
            (colCell allNames e) with
        | error u2 => rfl
        | ok cs =>
          rw [hm2] at h1
          exact Except.noConfusion h1
      rw [parseRowsGo_cons_err hec, rowOfSelected_eq includeKey sel allNames e, hm]
      rfl
    | ok p =>
      obtain ⟨cells, fields'⟩ := p
      have hm : (sel.filter (fun c => !isKeyAlias c && allNames.contains c)).mapM
          (colCell allNames e) = .ok cells := by
        have h1 := entityCells_cells allNames e sel [] fields
        rw [hec] at h1
        cases hm2 : (sel.filter (fun c => !isKeyAlias c && allNames.contains c)).mapM
            (colCell allNames e) with
        | error u2 =>
          rw [hm2] at h1
          exact Except.noConfusion h1
        | ok cs =>
          rw [hm2] at h1
          have h3 : (Except.ok cells : Except Unit (List Value)) = Except.ok cs := h1
          injection h3 with h4
          rw [h4]
      rw [parseRowsGo_cons_ok hec, rowOfSelected_eq includeKey sel allNames e, hm,
        ih (rows0 ++ [(if includeKey then [Value.vKeyPath e.keyPath] else []) ++ cells])
          fields']
      cases hrest : rest.mapM (rowOfSelected includeKey sel allNames) with
      | error u => rfl
      | ok rs =>
        show Except.ok ((rows0 ++
            [(if includeKey then [Value.vKeyPath e.keyPath] else []) ++ cells]) ++ rs) =
          Except.ok (rows0 ++
            ((if includeKey then [Value.vKeyPath e.keyPath] else []) ++ cells) :: rs)
        rw [List.append_assoc, List.singleton_append]

theorem any_fst_map (m : FieldsMap) (k : String) :
    (m.map (·.1)).any (fun s => decide (s = k)) = m.any (fun p => decide (p.1 = k)) := by
  induction m with
  | nil => rfl
  | cons p rest ih => rw [List.map_cons, List.any_cons, List.any_cons, ih]

theorem assocSet_keys_of_mem (m : FieldsMap) (k : String) (v : Option PropType)
    (h : m.any (fun p => decide (p.1 = k)) = true) :
    (assocSet m k v).map (·.1) = m.map (·.1) := by
  unfold assocSet
  rw [if_pos h, List.map_map]
  apply List.map_congr_left
  intro p _
  by_cases hp : p.1 = k
  · simp only [Function.comp_apply, if_pos hp]
    exact hp.symm
  · simp only [Function.comp_apply, if_neg hp]

theorem assocSet_keys_of_not_mem (m : FieldsMap) (k : String) (v : Option PropType)
    (h : m.any (fun p => decide (p.1 = k)) = false) :
    (assocSet m k v).map (·.1) = m.map (·.1) ++ [k] := by
  unfold assocSet
  rw [if_neg (by rw [h]; exact Bool.false_ne_true), List.map_append]
  rfl

theorem foldl_assocSet_keys :
    ∀ (xs : List String) (fs : FieldsMap),
      (xs.foldl (fun fs n => assocSet fs n none) fs).map (·.1) =
        fs.map (·.1) ++ addNew (fs.map (·.1)) xs := by
  intro xs
  induction xs with
  | nil =>
    intro fs
    rw [List.foldl_nil]
    simp only [addNew]
    rw [List.append_nil]
  | cons x rest ih =>
    intro fs
    simp only [List.foldl_cons]
    cases h : fs.any (fun p => decide (p.1 = x)) with
    | true =>
      rw [ih, assocSet_keys_of_mem fs x none h]
      have ha : addNew (fs.map (·.1)) (x :: rest) = addNew (fs.map (·.1)) rest := by
        simp only [addNew]
        rw [if_pos ((any_fst_map fs x).trans h)]
      rw [ha]
    | false =>
      rw [ih, assocSet_keys_of_not_mem fs x none h]
      have ha : addNew (fs.map (·.1)) (x :: rest) =
          x :: addNew (fs.map (·.1) ++ [x]) rest := by
        simp only [addNew]
        rw [if_neg (by rw [(any_fst_map fs x).trans h]; exact Bool.false_ne_true)]
      rw [ha, List.append_assoc, List.singleton_append]

theorem addNew_disjoint :
    ∀ (xs seen : List String), xs.Nodup →
      (∀ x ∈ xs, seen.any (fun s => decide (s = x)) = false) →
      addNew seen xs = xs := by
  intro xs
  induction xs with
  | nil => intro seen _ _; rfl
  | cons x rest ih =>
    intro seen hnd hdis
    simp only [addNew]
    rw [if_neg (by rw [hdis x (List.mem_cons_self x rest)]; exact Bool.false_ne_true)]
    congr 1
    apply ih (seen ++ [x]) (List.Nodup.of_cons hnd)
    intro y hy
    rw [List.any_append, hdis y (List.mem_cons_of_mem x hy), Bool.false_or,
      List.any_cons, List.any_nil, Bool.or_false]
    exact decide_eq_false fun hxy => (List.nodup_cons.mp hnd).1 (hxy ▸ hy)

theorem foldl_guard_filter {α : Type} (g : α → String → α) (p : String → Bool) :
    ∀ (xs : List String) (a : α),
      xs.foldl (fun acc x => if p x then g acc x else acc) a =
        (xs.filter p).foldl g a := by
  intro xs
  induction xs with
  | nil => intro a; rfl
  | cons x rest ih =>
    intro a
    simp only [List.foldl_cons, List.filter_cons]
    cases h : p x with
    | true =>
      rw [if_pos (Eq.refl true), if_pos (Eq.refl true), List.foldl_cons, ih]
    | false =>
      rw [if_neg Bool.false_ne_true, if_neg Bool.false_ne_true, ih]

theorem foldl_guard_assocSet_keys (allNames : List String) (xs : List String)
    (fs : FieldsMap) :
    ((xs.foldl (fun fs col =>
        if !isKeyAlias col && allNames.contains col then assocSet fs col none else fs)
      fs).map (·.1)) =
      fs.map (·.1) ++ addNew (fs.map (·.1))
        (xs.filter (fun c => !isKeyAlias c && allNames.contains c)) := by
  rw [foldl_guard_filter (fun fs col => assocSet fs col none)
    (fun c => !isKeyAlias c && allNames.contains c) xs fs]
  exact foldl_assocSet_keys (xs.filter (fun c => !isKeyAlias c && allNames.contains c)) fs

theorem selFoldFlag (allNames : List String) :
    ∀ (sel : List String) (acc : List String × Bool),
      (sel.foldl
        (fun (acc : List String × Bool) col =>
          if isKeyAlias col then (acc.1, true)
          else if allNames.contains col then (acc.1 ++ [col], acc.2)
          else acc) acc).2 = (acc.2 || sel.any isKeyAlias) := by
  intro sel
  induction sel with
  | nil => intro acc; rw [List.foldl_nil, List.any_nil, Bool.or_false]
  | cons col rest ih =>
    intro acc
    simp only [List.foldl_cons, List.any_cons]
    cases h : isKeyAlias col with
    | true =>
      rw [if_pos (Eq.refl true), ih,
        show ((acc.1, true) : List String × Bool).2 = true from rfl,
        Bool.true_or, Bool.or_true]
    | false =>
      rw [if_neg Bool.false_ne_true, Bool.false_or]
      cases hc : allNames.contains col with
      | true => rw [if_pos (Eq.refl true), ih]
      | false => rw [if_neg Bool.false_ne_true, ih]

theorem parse_some_eq (data : List EntityResult) (x : String) (xs : List String) :
    parse data (some (x :: xs)) =
      parseRowsGo ((x :: xs).any isKeyAlias) true (x :: xs) (unionNames data) data []
        ((x :: xs).foldl
          (fun fs col =>
            if !isKeyAlias col && (unionNames data).contains col then assocSet fs col none
            else fs)
          (if (x :: xs).any isKeyAlias then [("key", none)] else [])) := by
  show parseRowsGo
      (((x :: xs).foldl
        (fun (acc : List String × Bool) col =>
          if isKeyAlias col then (acc.1, true)
          else if (unionNames data).contains col then (acc.1 ++ [col], acc.2)
          else acc) ([], false)).2) true (x :: xs) (unionNames data) data []
      ((x :: xs).foldl
        (fun fs col =>
          if !isKeyAlias col && (unionNames data).contains col then assocSet fs col none
          else fs)
        (if (((x :: xs).foldl
            (fun (acc : List String × Bool) col =>
              if isKeyAlias col then (acc.1, true)
              else if (unionNames data).contains col then (acc.1 ++ [col], acc.2)
              else acc) ([], false)).2) then [("key", none)] else [])) = _
  rw [selFoldFlag (unionNames data) (x :: xs) ([], false)]
  simp only [Bool.false_or]

/-- C8: what `ParseEntity.parse` actually produces.  With no column selection
the field list is the key pseudo-column followed by the lexicographically
sorted union of the batch's property names.  With a selection, the key
pseudo-column appears iff some requested column is a key alias
(`__key__`/`key`, case-insensitively — `id` is not one), and the remaining
fields are the requested columns restricted to names present somewhere in the
batch, first occurrence only; each row holds, for exactly those retained
columns, the parsed property value or Null when that entity lacks the
property — parsing never fails on a missing property. -/
theorem C8_materializer_columns :
    (∀ (data : List EntityResult) (rows : List (List Value)) (fields : FieldsMap),
      parse data none = .ok (rows, fields) →
      (sortStr (unionNames data)).Nodup →
      "key" ∉ sortStr (unionNames data) →
      fields.map (·.1) = "key" :: sortStr (unionNames data)) ∧
    (∀ (data : List EntityResult) (x : String) (xs : List String)
        (rows : List (List Value)) (fields : FieldsMap),
      parse data (some (x :: xs)) = .ok (rows, fields) →
      fields.map (·.1) =
        (if (x :: xs).any isKeyAlias then ["key"] else []) ++
          addNew (if (x :: xs).any isKeyAlias then ["key"] else [])
            ((x :: xs).filter
              (fun c => !isKeyAlias c && (unionNames data).contains c)) ∧
      data.mapM
          (rowOfSelected ((x :: xs).any isKeyAlias) (x :: xs) (unionNames data)) =
        .ok rows) := by
  refine ⟨?_, ?_⟩
  · intro data rows fields h hnd hkey
    have hp : parse data none =
        parseRowsGo true false (sortStr (unionNames data)) (unionNames data) data []
          ((sortStr (unionNames data)).foldl (fun fs n => assocSet fs n none)
            [("key", none)]) := rfl
    rw [hp] at h
    have h1 := parseRowsGo_keys true false (sortStr (unionNames data)) (unionNames data)
      data []
      ((sortStr (unionNames data)).foldl (fun fs n => assocSet fs n none)
        [("key", none)])
      rows fields h
    have h3 : addNew ["key"] (sortStr (unionNames data)) = sortStr (unionNames data) := by
      apply addNew_disjoint _ _ hnd
      intro y hy
      rw [List.any_cons, List.any_nil, Bool.or_false]
      exact decide_eq_false fun hky => hkey (hky.symm ▸ hy)
    rw [h1, foldl_assocSet_keys (sortStr (unionNames data)) [("key", none)],
      show ([("key", (none : Option PropType))] : FieldsMap).map (·.1) = ["key"] from rfl,
      h3, List.singleton_append]
  · intro data x xs rows fields h
    rw [parse_some_eq data x xs] at h
    refine ⟨?_, ?_⟩
    · have h1 := parseRowsGo_keys ((x :: xs).any isKeyAlias) true (x :: xs)
        (unionNames data) data []
        ((x :: xs).foldl
          (fun fs col =>
            if !isKeyAlias col && (unionNames data).contains col then assocSet fs col none
            else fs)
          (if (x :: xs).any isKeyAlias then [("key", none)] else []))
        rows fields h
      rw [h1, foldl_guard_assocSet_keys]
      cases hk : (x :: xs).any isKeyAlias with
      | true => simp
      | false => simp
    · have h2 := parseRowsGo_rows ((x :: xs).any isKeyAlias) (x :: xs) (unionNames data)
        data []
        ((x :: xs).foldl
          (fun fs col =>
            if !isKeyAlias col && (unionNames data).contains col then assocSet fs col none
            else fs)
          (if (x :: xs).any isKeyAlias then [("key", none)] else []))
      rw [h] at h2
      cases hm : data.mapM
          (rowOfSelected ((x :: xs).any isKeyAlias) (x :: xs) (unionNames data)) with
      | error u =>
        rw [hm] at h2
        exact Except.noConfusion h2
      | ok rs =>
        rw [hm] at h2
        have h3 : (Except.ok rows : Except Unit (List (List Value))) =
            Except.ok ([] ++ rs) := h2
        injection h3 with h4
        rw [h4, List.nil_append]

/-- C8 counterexample: requesting columns `a`, `b`, `id` over a one-entity
batch whose only property is `a`.  The requested column `b` is silently
dropped rather than materialized as a Null column, and `id` is not treated as
a key alias (nor kept as a column), so the result has one column `a` instead
of the requested three-column layout. -/
theorem C8_requested_columns_dropped :
    parse [⟨[("a", WireValue.integerValue 1)], [⟨"t", some 7, none⟩]⟩]
        (some ["a", "b", "id"]) =
      .ok ([[Value.vInt 1]], [("a", some PropType.integerT)]) ∧
    (["a"] : List String) ≠ ["a", "b", "id"] ∧ isKeyAlias "id" = false := by
  refine ⟨rfl, by decide, rfl⟩

/-- C8 witness: both branches of `C8_materializer_columns` applied to
`sampleBatch` (properties `b`,`a` on the first entity, only `a` on the
second), without and with a selected column list containing a key alias and a
duplicate. -/
theorem C8_materializer_columns_witness :
    (([("key", (none : Option PropType)), ("a", some PropType.integerT),
        ("b", some PropType.integerT)] : FieldsMap).map (·.1) =
      "key" :: sortStr (unionNames sampleBatch)) ∧
    (([("key", (none : Option PropType)), ("a", some PropType.integerT)] :
        FieldsMap).map (·.1) =
      (if (["a", "__KEY__", "a"] : List String).any isKeyAlias then ["key"] else []) ++
        addNew
          (if (["a", "__KEY__", "a"] : List String).any isKeyAlias then ["key"] else [])
          ((["a", "__KEY__", "a"] : List String).filter
            (fun c => !isKeyAlias c && (unionNames sampleBatch).contains c))) ∧
    sampleBatch.mapM
        (rowOfSelected ((["a", "__KEY__", "a"] : List String).any isKeyAlias)
          ["a", "__KEY__", "a"] (unionNames sampleBatch)) =
      .ok [[Value.vKeyPath [⟨"t", some 7, none⟩], Value.vInt 1, Value.vInt 1],
           [Value.vKeyPath [⟨"t", some 8, none⟩], Value.vInt 3, Value.vInt 3]] := by
  refine ⟨C8_materializer_columns.1 sampleBatch
      [[Value.vKeyPath [⟨"t", some 7, none⟩], Value.vInt 1, Value.vInt 2],
       [Value.vKeyPath [⟨"t", some 8, none⟩], Value.vInt 3, Value.vNull]]
      [("key", none), ("a", some PropType.integerT), ("b", some PropType.integerT)]
      rfl (by decide) (by decide), ?_, ?_⟩
  · exact (C8_materializer_columns.2 sampleBatch "a" ["__KEY__", "a"]
      [[Value.vKeyPath [⟨"t", some 7, none⟩], Value.vInt 1, Value.vInt 1],
       [Value.vKeyPath [⟨"t", some 8, none⟩], Value.vInt 3, Value.vInt 3]]
      [("key", none), ("a", some PropType.integerT)] rfl).1
  · exact (C8_materializer_columns.2 sampleBatch "a" ["__KEY__", "a"]
      [[Value.vKeyPath [⟨"t", some 7, none⟩], Value.vInt 1, Value.vInt 1],
       [Value.vKeyPath [⟨"t", some 8, none⟩], Value.vInt 3, Value.vInt 3]]
      [("key", none), ("a", some PropType.integerT)] rfl).2

end DatastoreDBAPI
